import Mathlib

/-!
Verification of the VectorScan glyph-vectorisation core (clearscan-oss).

This file is a shallow embedding, in Lean 4, of the Python sources under
src/: the Type 3 font assembler (engine/glyph_pipeline/type3_font.py), the
overlay writer (engine/glyph_pipeline/pdf_builder.py), the character-box
extractor and glyph aggregator (engine/glyph_pipeline/extractor.py), the
SVG-path transcoder (engine/glyph_pipeline/vectorizer.py) and the OCRmyPDF
fallback driver (engine/clearscan_engine.py).

Modelling conventions:
  - Python ints are Int or Nat; Python floats are idealised as exact
    rationals (the sources only add, subtract, multiply and divide).
  - Python dicts that the sources iterate in insertion order are modelled
    as association lists in the same order; dict-style overwriting lookups
    take the last binding.
  - External collaborators (Tesseract, the raster-to-SVG backends, the
    ocrmypdf child process) are out of scope by the specification; they
    enter the model as explicit inputs (parsed box rows, extracted SVG
    "d" attributes, a command runner function).
  - Python exceptions are modelled with Except / Option.
-/

namespace VectorScan

/-! ## Numeric and string helpers shared by several components -/

/-- Decimal digit character for a value below 10. -/
def digitChar (n : ℕ) : Char :=
  Char.ofNat (48 + n)

/-- Uppercase hexadecimal digit character for a value below 16. -/
def hexDigitChar (n : ℕ) : Char :=
  if n < 10 then Char.ofNat (48 + n) else Char.ofNat (55 + n)

/-- Decimal digits of a natural number, most significant first
(fuel-driven so that it is structurally recursive and kernel-reducible). -/
def decChars : ℕ → ℕ → List Char
  | 0, _ => []
  | f + 1, n => if n < 10 then [digitChar n] else decChars f (n / 10) ++ [digitChar (n % 10)]

/-- Decimal representation of a natural number, as Python's str(). -/
def decRepr (n : ℕ) : String :=
  ⟨decChars (n + 1) n⟩

/-- Uppercase hexadecimal digits of a natural number, most significant first. -/
def hexChars : ℕ → ℕ → List Char
  | 0, _ => []
  | f + 1, n => if n < 16 then [hexDigitChar n] else hexChars f (n / 16) ++ [hexDigitChar (n % 16)]

/-- Value of a list of uppercase-hex digit characters (inverse of hexChars). -/
def hexVal (l : List Char) : ℕ :=
  l.foldl (fun a c => 16 * a + (if c.toNat ≤ 57 then c.toNat - 48 else c.toNat - 55)) 0

/-- Python's format spec 04X: uppercase hex, zero-padded on the left to
at least four digits. -/
def hexPad4 (n : ℕ) : String :=
  let ds := hexChars (n + 1) n
  ⟨List.replicate (4 - ds.length) '0' ++ ds⟩

theorem hexVal_append (l : List Char) (d : Char) :
    hexVal (l ++ [d]) =
      16 * hexVal l + (if d.toNat ≤ 57 then d.toNat - 48 else d.toNat - 55) := by
  simp [hexVal, List.foldl_append]

theorem hexVal_hexDigitChar (m : ℕ) (hm : m < 16) :
    (if (hexDigitChar m).toNat ≤ 57 then (hexDigitChar m).toNat - 48
      else (hexDigitChar m).toNat - 55) = m := by
  interval_cases m <;> decide

theorem hexVal_hexChars (fuel n : ℕ) (h : n < fuel) :
    hexVal (hexChars fuel n) = n := by
  induction fuel generalizing n with
  | zero => omega
  | succ f ih =>
    by_cases hn : n < 16
    · simp only [hexChars, if_pos hn, hexVal]
      simpa using hexVal_hexDigitChar n hn
    · have hdiv : n / 16 < f := by omega
      simp only [hexChars, if_neg hn]
      rw [hexVal_append, ih _ hdiv, hexVal_hexDigitChar _ (Nat.mod_lt _ (by omega))]
      omega

theorem hexVal_replicate_zero (k : ℕ) (l : List Char) :
    hexVal (List.replicate k '0' ++ l) = hexVal l := by
  induction k with
  | zero => simp
  | succ m ih =>
    have : List.replicate (m + 1) '0' ++ l = '0' :: (List.replicate m '0' ++ l) := by
      simp [List.replicate_succ]
    rw [this]
    simpa [hexVal] using ih

theorem hexPad4_injective : Function.Injective hexPad4 := by
  intro a b hab
  have h1 : hexVal (hexPad4 a).data = a := by
    simp only [hexPad4]
    rw [hexVal_replicate_zero, hexVal_hexChars _ _ (Nat.lt_succ_self a)]
  have h2 : hexVal (hexPad4 b).data = b := by
    simp only [hexPad4]
    rw [hexVal_replicate_zero, hexVal_hexChars _ _ (Nat.lt_succ_self b)]
  rw [← h1, ← h2, hab]

/-- Three-digit octal escape digits of a byte value (Python format 03o,
for values below 512 this is always exactly three digits). -/
def oct3 (n : ℕ) : String :=
  ⟨[digitChar (n / 64 % 8), digitChar (n / 8 % 8), digitChar (n % 8)]⟩

/-- Numeric value denoted by a three-octal-digit escape. -/
def octEscVal (s : String) : ℕ :=
  match s.data with
  | [a, b, c] => 64 * (a.toNat - 48) + 8 * (b.toNat - 48) + (c.toNat - 48)
  | _ => 0

theorem digitChar_toNat (m : ℕ) (h : m < 10) : (digitChar m).toNat = 48 + m := by
  interval_cases m <;> decide

theorem octEscVal_oct3 (n : ℕ) (h : n < 512) : octEscVal (oct3 n) = n := by
  simp only [oct3, octEscVal]
  rw [digitChar_toNat _ (by omega), digitChar_toNat _ (by omega), digitChar_toNat _ (by omega)]
  omega

/-- Round-half-to-even on rationals (the rounding used by Python's round()
and its float formatting, idealised over exact rationals). -/
def roundHE (q : ℚ) : ℤ :=
  let f := ⌊q⌋
  let r := q - f
  if r < 1 / 2 then f
  else if 1 / 2 < r then f + 1
  else if f % 2 = 0 then f else f + 1

/-- Python's round(x, 3). -/
def round3 (q : ℚ) : ℚ :=
  (roundHE (q * 1000) : ℚ) / 1000

theorem roundHE_intCast (z : ℤ) : roundHE (z : ℚ) = z := by
  simp [roundHE]

/-! ## type3_font.py -/

/-- The printable-ASCII to Adobe glyph-name table `_GLYPH_NAMES`
(type3_font.py lines 20-42). -/
def glyphNames : List (Char × String) :=
  [(' ', "space"), ('!', "exclam"), ('"', "quotedbl"), ('#', "numbersign"),
   ('$', "dollar"), ('%', "percent"), ('&', "ampersand"), ('\x27', "quotesingle"),
   ('(', "parenleft"), (')', "parenright"), ('*', "asterisk"), ('+', "plus"),
   (',', "comma"), ('-', "hyphen"), ('.', "period"), ('/', "slash"),
   ('0', "zero"), ('1', "one"), ('2', "two"), ('3', "three"), ('4', "four"),
   ('5', "five"), ('6', "six"), ('7', "seven"), ('8', "eight"), ('9', "nine"),
   (':', "colon"), (';', "semicolon"), ('<', "less"), ('=', "equal"), ('>', "greater"),
   ('?', "question"), ('@', "at"),
   ('A', "A"), ('B', "B"), ('C', "C"), ('D', "D"), ('E', "E"), ('F', "F"),
   ('G', "G"), ('H', "H"), ('I', "I"), ('J', "J"), ('K', "K"), ('L', "L"),
   ('M', "M"), ('N', "N"), ('O', "O"), ('P', "P"), ('Q', "Q"), ('R', "R"),
   ('S', "S"), ('T', "T"), ('U', "U"), ('V', "V"), ('W', "W"), ('X', "X"),
   ('Y', "Y"), ('Z', "Z"),
   ('[', "bracketleft"), ('\\', "backslash"), (']', "bracketright"),
   ('^', "asciicircum"), ('_', "underscore"), ('\x60', "grave"),
   ('a', "a"), ('b', "b"), ('c', "c"), ('d', "d"), ('e', "e"), ('f', "f"),
   ('g', "g"), ('h', "h"), ('i', "i"), ('j', "j"), ('k', "k"), ('l', "l"),
   ('m', "m"), ('n', "n"), ('o', "o"), ('p', "p"), ('q', "q"), ('r', "r"),
   ('s', "s"), ('t', "t"), ('u', "u"), ('v', "v"), ('w', "w"), ('x', "x"),
   ('y', "y"), ('z', "z"),
   ('{', "braceleft"), ('|', "bar"), ('}', "braceright"), ('~', "asciitilde")]

/-- glyph_name (type3_font.py lines 45-50): table lookup with a
uniXXXX fallback. -/
def glyphName (c : Char) : String :=
  match (glyphNames.find? (fun e => e.1 = c)) with
  | some e => e.2
  | none => "uni" ++ hexPad4 c.toNat

/-- char_code (type3_font.py lines 53-57): identity for codepoints up to
0xFF, otherwise cp % 128 + 128. -/
def charCode (c : Char) : ℕ :=
  let cp := c.toNat
  if cp ≤ 0xFF then cp else cp % 128 + 128

theorem glyphNames_chars_le : ∀ e ∈ glyphNames, e.1.toNat ≤ 126 := by decide

set_option maxHeartbeats 1000000 in
theorem glyphNames_values_nodup : (glyphNames.map (fun e => e.2)).Nodup := by decide

/-- Whether a string starts with the three characters "uni". -/
def startsWithUni (s : String) : Bool :=
  match s.data with
  | 'u' :: 'n' :: 'i' :: _ => true
  | _ => false

theorem glyphNames_values_not_uni : ∀ e ∈ glyphNames, startsWithUni e.2 = false := by decide

theorem startsWithUni_append (s : String) : startsWithUni ("uni" ++ s) = true := by
  have : ("uni" ++ s).data = 'u' :: 'n' :: 'i' :: s.data := by
    rw [String.data_append]
    rfl
  rw [startsWithUni, this]
  rfl

/-- Codepoints above the table range always fall through to uniXXXX. -/
theorem glyphName_of_gt (c : Char) (h : 126 < c.toNat) :
    glyphName c = "uni" ++ hexPad4 c.toNat := by
  have hfind : glyphNames.find? (fun e => e.1 = c) = none := by
    rw [List.find?_eq_none]
    intro e he
    have := glyphNames_chars_le e he
    simp only [decide_eq_true_eq]
    intro hc
    rw [hc] at this
    omega
  rw [glyphName, hfind]

theorem glyphName_injective : Function.Injective glyphName := by
  intro a b hab
  by_contra hne
  unfold glyphName at hab
  cases hfa : glyphNames.find? (fun e => e.1 = a) with
  | some ea =>
    have hea : ea.1 = a := by simpa using List.find?_some hfa
    have heam : ea ∈ glyphNames := List.mem_of_find?_eq_some hfa
    cases hfb : glyphNames.find? (fun e => e.1 = b) with
    | some eb =>
      have heb : eb.1 = b := by simpa using List.find?_some hfb
      have hebm : eb ∈ glyphNames := List.mem_of_find?_eq_some hfb
      rw [hfa, hfb] at hab
      simp only at hab
      -- two distinct table keys with the same value contradict Nodup of values
      have hne2 : ea ≠ eb := by
        intro h
        exact hne (by rw [← hea, ← heb, h])
      have := List.inj_on_of_nodup_map glyphNames_values_nodup
      exact hne2 (this heam hebm hab)
    | none =>
      rw [hfa, hfb] at hab
      simp only at hab
      have h1 : startsWithUni ea.2 = false := glyphNames_values_not_uni ea heam
      rw [hab] at h1
      rw [startsWithUni_append] at h1
      cases h1
  | none =>
    cases hfb : glyphNames.find? (fun e => e.1 = b) with
    | some eb =>
      have hebm : eb ∈ glyphNames := List.mem_of_find?_eq_some hfb
      rw [hfa, hfb] at hab
      simp only at hab
      have h1 : startsWithUni eb.2 = false := glyphNames_values_not_uni eb hebm
      rw [← hab] at h1
      rw [startsWithUni_append] at h1
      cases h1
    | none =>
      rw [hfa, hfb] at hab
      simp only at hab
      have := hexPad4_injective (by
        have := congrArg String.data hab
        simp only [String.data_append] at this
        have h3 := List.append_cancel_left this
        exact congrArg String.mk h3)
      exact hne (Char.eq_of_val_eq (UInt32.ext this))

/-- Insert into a sorted list, keeping existing equal elements first
(stable ascending insertion). -/
def insertAsc (x : ℕ) : List ℕ → List ℕ
  | [] => [x]
  | y :: ys => if y ≤ x then y :: insertAsc x ys else x :: y :: ys

/-- Python's sorted() on a list of naturals (stable ascending sort,
realised as insertion sort; only the multiset of elements matters here). -/
def sortAsc : List ℕ → List ℕ
  | [] => []
  | x :: xs => insertAsc x (sortAsc xs)

theorem mem_insertAsc {x y : ℕ} {l : List ℕ} : y ∈ insertAsc x l ↔ y = x ∨ y ∈ l := by
  induction l with
  | nil => simp [insertAsc]
  | cons a as ih =>
    by_cases h : a ≤ x
    · simp only [insertAsc, if_pos h, List.mem_cons, ih]
      tauto
    · simp only [insertAsc, if_neg h, List.mem_cons]

theorem sorted_insertAsc {x : ℕ} {l : List ℕ} (h : List.Sorted (· ≤ ·) l) :
    List.Sorted (· ≤ ·) (insertAsc x l) := by
  induction l with
  | nil => simp [insertAsc]
  | cons a as ih =>
    rw [List.sorted_cons] at h
    by_cases hax : a ≤ x
    · rw [insertAsc, if_pos hax, List.sorted_cons]
      refine ⟨fun b hb => ?_, ih h.2⟩
      rcases mem_insertAsc.1 hb with hb | hb
      · omega
      · exact h.1 b hb
    · rw [insertAsc, if_neg hax, List.sorted_cons]
      exact ⟨fun b hb => by rcases List.mem_cons.1 hb with hb | hb <;>
        [omega; exact le_trans (by omega) (h.1 b hb)], List.sorted_cons.2 h⟩

theorem mem_sortAsc {y : ℕ} {l : List ℕ} : y ∈ sortAsc l ↔ y ∈ l := by
  induction l with
  | nil => simp [sortAsc]
  | cons a as ih => simp [sortAsc, mem_insertAsc, ih]

theorem sorted_sortAsc (l : List ℕ) : List.Sorted (· ≤ ·) (sortAsc l) := by
  induction l with
  | nil => simp [sortAsc]
  | cons a as ih => exact sorted_insertAsc ih

theorem sortAsc_ne_nil {l : List ℕ} (h : l ≠ []) : sortAsc l ≠ [] := by
  cases l with
  | nil => exact absurd rfl h
  | cons a as =>
    rw [sortAsc]
    intro hc
    have : a ∈ insertAsc a (sortAsc as) := mem_insertAsc.2 (Or.inl rfl)
    rw [hc] at this
    exact absurd this (List.not_mem_nil a)

/-- The head of a sorted non-empty list is a lower bound. -/
theorem sorted_head_le {l : List ℕ} (hs : List.Sorted (· ≤ ·) l) {y : ℕ} (hy : y ∈ l) :
    l.headD 0 ≤ y := by
  cases l with
  | nil => cases hy
  | cons a as =>
    rw [List.sorted_cons] at hs
    rcases List.mem_cons.1 hy with h | h
    · simp [h]
    · simpa using hs.1 y h

/-- The last element of a sorted non-empty list is an upper bound. -/
theorem sorted_le_getLast {l : List ℕ} (hs : List.Sorted (· ≤ ·) l) {y : ℕ} (hy : y ∈ l) :
    y ≤ l.getLastD 0 := by
  induction l with
  | nil => cases hy
  | cons a as ih =>
    rw [List.sorted_cons] at hs
    cases as with
    | nil =>
      simp only [List.mem_singleton] at hy
      simp [hy]
    | cons b bs =>
      rcases List.mem_cons.1 hy with h | h
      · subst h
        have hb : (b :: bs).getLastD 0 ∈ b :: bs := by
          have : (b :: bs).getLastD 0 = (b :: bs).getLast (by simp) := by
            simp [List.getLastD_eq_getLast?, List.getLast?_eq_getLast]
          rw [this]
          exact List.getLast_mem _
        simpa using le_trans (hs.1 _ (by simpa using hb)) (le_refl _)
      · simpa using ih hs.2 h

/-! ## Type 3 font assembly (build_type3_font, type3_font.py lines 60-146) -/

/-- The EM constant (type3_font.py line 17). -/
def EM : ℚ := 1000

/-- The glyph map handed to the assembler: chars with their advance width
(em units) and PDF path-operator string, in Python dict insertion order. -/
abbrev GlyphMap := List (Char × ℚ × String)

/-- A CharProcs glyph stream, kept as its semantic content: the rounded
advance width written into the d1 header, and the path-operator body
(the literal stream is "{adv:.3f} 0 0 0 {adv:.3f} 1000.000 d1\n{ops}\n"). -/
structure GlyphStream where
  adv : ℚ
  pathOps : String
deriving DecidableEq

/-- An entry of the Encoding.Differences array: a code integer or a
glyph name. -/
inductive DiffEntry where
  | code (n : ℕ)
  | name (s : String)
deriving DecidableEq

/-- The assembled Type 3 font (the fields of the font dictionary that
carry glyph data; FontBBox/FontMatrix are constants). -/
structure Type3Font where
  firstChar : ℕ
  lastChar : ℕ
  widths : List ℚ
  charProcs : List (String × GlyphStream)
  differences : List DiffEntry
deriving DecidableEq

/-- Width recorded for a byte code: the last glyph written at that code
wins (the Python dict widths[code] = adv_w overwrites). -/
def widthAt (m : GlyphMap) (code : ℕ) : ℚ :=
  match m.reverse.find? (fun e => charCode e.1 = code) with
  | some e => round3 e.2.1
  | none => 0

/-- One step of the Encoding.Differences sweep (type3_font.py lines
110-119): state is (prev_code, accumulated entries). -/
def diffStep (m : GlyphMap) (st : Option ℕ × List DiffEntry) (code : ℕ) :
    Option ℕ × List DiffEntry :=
  match m.filter (fun e => charCode e.1 = code) with
  | [] => st
  | e :: _ =>
    let acc :=
      match st.1 with
      | none => st.2 ++ [DiffEntry.code code]
      | some p => if code = p + 1 then st.2 else st.2 ++ [DiffEntry.code code]
    (some code, acc ++ [DiffEntry.name (glyphName e.1)])

/-- codes = sorted(char_code(c) for c in char_glyphs)
(type3_font.py line 81). -/
def fontCodes (m : GlyphMap) : List ℕ :=
  sortAsc (m.map (fun e => charCode e.1))

/-- first_char = codes[0] (type3_font.py line 82). -/
def fontFirst (m : GlyphMap) : ℕ :=
  (fontCodes m).headD 0

/-- last_char = codes[-1] (type3_font.py line 83). -/
def fontLast (m : GlyphMap) : ℕ :=
  (fontCodes m).getLastD 0

/-- range(first_char, last_char + 1), the code sweep shared by the
Widths array and Encoding.Differences. -/
def fontRange (m : GlyphMap) : List ℕ :=
  List.range' (fontFirst m) (fontLast m + 1 - fontFirst m)

/-- build_type3_font (type3_font.py lines 60-146). Returns none when the
glyph map is empty (the Python code raises ValueError). -/
def buildType3Font (m : GlyphMap) : Option Type3Font :=
  if m = [] then none
  else
    some
      { firstChar := fontFirst m
        lastChar := fontLast m
        widths := (fontRange m).map (widthAt m)
        charProcs := m.map (fun e => (glyphName e.1, ⟨round3 e.2.1, e.2.2⟩))
        differences := ((fontRange m).foldl (diffStep m) (none, [])).2 }

/-! ## extractor.py -/

/-- CharBox (extractor.py lines 19-27): a per-character bounding box in
top-left-origin pixel coordinates.  Confidence is never read downstream
and is omitted. -/
structure CharBox where
  char : Char
  x1 : ℤ
  y1 : ℤ
  x2 : ℤ
  y2 : ℤ
  pageIdx : ℕ
deriving DecidableEq

/-- One parsed Tesseract box line "char x1 y1 x2 y2 page": the character
and the bottom-left-origin raw coordinates (parts[1..4] after int()). -/
structure RawBox where
  ch : Char
  x1 : ℤ
  y1 : ℤ
  x2 : ℤ
  y2 : ℤ
deriving DecidableEq

/-- The characters removed by Python's str.strip(); a single-character
string is falsy after strip() exactly when it is one of these. -/
def isPyWhitespace (c : Char) : Bool :=
  c = ' ' ∨ c = '\t' ∨ c = '\n' ∨ c = '\x0d' ∨ c = '\x0b' ∨ c = '\x0c'

/-- The body of the extract_char_boxes loop (extractor.py lines 88-109)
for one parsed row: drop whitespace codepoints, flip from bottom-left to
top-left origin, drop boxes empty after the flip. -/
def processRow (h : ℤ) (pageIdx : ℕ) (r : RawBox) : Option CharBox :=
  if isPyWhitespace r.ch then none
  else
    let y1 := h - r.y2
    let y2 := h - r.y1
    if r.x2 ≤ r.x1 ∨ y2 ≤ y1 then none
    else some ⟨r.ch, r.x1, y1, r.x2, y2, pageIdx⟩

/-- extract_char_boxes (extractor.py lines 63-109), applied to the parsed
rows of the OCR output (the OCR engine itself is an external
collaborator; rows with fewer than five fields never parse). -/
def extractCharBoxes (h : ℤ) (pageIdx : ℕ) (rows : List RawBox) : List CharBox :=
  rows.filterMap (processRow h pageIdx)

/-- Bounding-box area used as the representative-selection key
(extractor.py line 132). -/
def boxArea (b : CharBox) : ℤ :=
  (b.x2 - b.x1) * (b.y2 - b.y1)

/-- pick_representative (extractor.py lines 130-132).  The Python
function receives (PageInfo, CharBox) pairs and keys on the box (t[1]);
the PageInfo component plays no role in the selection and is omitted
here.  Python's max() keeps the current element on ties, i.e. it
returns the first element of maximal key in iteration order; none
models the ValueError on an empty sequence. -/
def pickRepresentative (l : List CharBox) : Option CharBox :=
  match l with
  | [] => none
  | x :: xs => some (xs.foldl (fun acc b => if boxArea acc < boxArea b then b else acc) x)

/-! ## pdf_builder.py -/

/-- A PageInfo as consumed by the overlay writer (extractor.py lines
30-38, without the bitmap). -/
structure PageInfo where
  pageIdx : ℕ
  widthPx : ℤ
  heightPx : ℤ
  widthPt : ℚ
  heightPt : ℚ
  charBoxes : List CharBox
deriving DecidableEq

/-- _pt (pdf_builder.py lines 24-26): pixels at 300 DPI to PDF points. -/
def ptQ (v : ℚ) : ℚ :=
  v * 72 / 300

/-- _encode_char (pdf_builder.py lines 29-35): the octal escape of the
assigned byte code. -/
def encodeChar (c : Char) : String :=
  "\\" ++ oct3 (charCode c)

/-- One whitespace-separated token of an overlay content-stream line.
Numeric tokens keep their exact rational value (the source prints them
with %.4f; every value taken here is an integer multiple of 0.24, so the
four-decimal rendering is lossless); esc is the parenthesised
octal-escape string literal of a byte code. -/
inductive StreamTok where
  | s (x : String)
  | n (v : ℚ)
  | esc (code : ℕ)
deriving DecidableEq

/-- The white-out rectangle line "1 g  x y w h re f"
(pdf_builder.py lines 73-75). -/
def rectLine (x y w h : ℚ) : List StreamTok :=
  [.s "1", .s "g", .n x, .n y, .n w, .n h, .s "re", .s "f"]

/-- The glyph-draw line "0 g  BT  /VF1 h Tf  1 0 0 1 x y Tm  (esc) Tj  ET"
(pdf_builder.py lines 80-85). -/
def glyphLine (fontName : String) (size x y : ℚ) (code : ℕ) : List StreamTok :=
  [.s "0", .s "g", .s "BT", .s ("/" ++ fontName), .n size, .s "Tf",
   .s "1", .s "0", .s "0", .s "1", .n x, .n y, .s "Tm",
   .esc code, .s "Tj", .s "ET"]

/-- Python dict lookup on the glyph map (keys are unique). -/
def lookupGlyph (m : GlyphMap) (c : Char) : Option (ℚ × String) :=
  (m.find? (fun e => e.1 = c)).map (fun e => e.2)

/-- The loop body of _build_page_stream (pdf_builder.py lines 56-85) for
one box: skipped entirely when the codepoint is not in the font map or
the box is degenerate in points. -/
def boxLines (pageHpt : ℚ) (m : GlyphMap) (fontName : String) (box : CharBox) :
    List (List StreamTok) :=
  if (lookupGlyph m box.char).isSome then
    let xPt := ptQ box.x1
    let yPt := pageHpt - ptQ box.y2
    let wPt := ptQ ((box.x2 : ℚ) - box.x1)
    let hPt := ptQ ((box.y2 : ℚ) - box.y1)
    if wPt ≤ 0 ∨ hPt ≤ 0 then []
    else [rectLine xPt yPt wPt hPt, glyphLine fontName hPt xPt yPt (charCode box.char)]
  else []

/-- _build_page_stream (pdf_builder.py lines 38-88): the overlay stream
as its list of lines, each line a list of tokens. -/
def buildPageStream (page : PageInfo) (m : GlyphMap) (fontName : String := "VF1") :
    List (List StreamTok) :=
  [[.s "q"]] ++ page.charBoxes.flatMap (boxLines (ptQ page.heightPx) m fontName) ++ [[.s "Q"]]

/-- Number of occurrences of a token in an overlay stream. -/
def countTok (lines : List (List StreamTok)) (t : StreamTok) : ℕ :=
  (lines.map (List.count t)).sum

/-- A page's /Contents slot: absent, a single stream, or an array of
streams. -/
inductive PdfContents where
  | null
  | single (s : List (List StreamTok))
  | array (l : List (List (List StreamTok)))
deriving DecidableEq

/-- Appending the overlay to /Contents (pdf_builder.py lines 116-122):
promote a single stream to an array when needed. -/
def appendContents (c : PdfContents) (ov : List (List StreamTok)) : PdfContents :=
  match c with
  | .null => .single ov
  | .array l => .array (l ++ [ov])
  | .single s => .array [s, ov]

/-- A page object: its /Contents and the /Font dictionary of its
/Resources (the outer Option is /Resources present, the inner is /Font
present; font objects are modelled by their indirect-object id). -/
structure PdfPage where
  contents : PdfContents
  resources : Option (Option (List (String × ℕ)))
deriving DecidableEq

/-- Python dict assignment on an association list. -/
def setKey (l : List (String × ℕ)) (k : String) (v : ℕ) : List (String × ℕ) :=
  if l.any (fun e => e.1 = k) then l.map (fun e => if e.1 = k then (k, v) else e)
  else l ++ [(k, v)]

/-- Registering the font resource (pdf_builder.py lines 124-130):
create /Resources and /Font when missing, then set /VF1. -/
def registerFont (r : Option (Option (List (String × ℕ)))) (fontName : String) (obj : ℕ) :
    Option (Option (List (String × ℕ))) :=
  some (some (setKey ((r.getD none).getD []) ("/" ++ fontName) obj))

/-- Whether the serialised stream is falsy after strip(): the joined
bytes are whitespace-only exactly when every line has no tokens. -/
def streamBlank (lines : List (List StreamTok)) : Bool :=
  lines.all (fun l => l.isEmpty)

/-- The loop body of overlay_type3_text (pdf_builder.py lines 102-130)
for one PageInfo: pages with no boxes are skipped, otherwise the overlay
stream is appended and the font registered on doc.pages[page_idx]. -/
def overlayStep (m : GlyphMap) (fontObj : ℕ) (fontName : String)
    (doc : List PdfPage) (info : PageInfo) : List PdfPage :=
  if info.charBoxes = [] then doc
  else
    let stream := buildPageStream info m fontName
    if streamBlank stream then doc
    else
      match doc[info.pageIdx]? with
      | none => doc
      | some pg =>
        doc.set info.pageIdx
          { contents := appendContents pg.contents stream
            resources := registerFont pg.resources fontName fontObj }

/-- overlay_type3_text (pdf_builder.py lines 91-130). -/
def overlayType3Text (doc : List PdfPage) (pages : List PageInfo) (m : GlyphMap)
    (fontObj : ℕ) (fontName : String := "VF1") : List PdfPage :=
  pages.foldl (overlayStep m fontObj fontName) doc

/-! ## vectorizer.py: SVG-path tokeniser -/

/-- A token of the SVG path lexer (vectorizer.py lines 116-119): a
single-letter command, or a signed decimal number kept exactly as
mantissa and power-of-ten exponent (Python converts the token with
float() at consumption time). -/
inductive SvgTok where
  | cmd (c : Char)
  | num (m : ℤ) (e : ℤ)
deriving DecidableEq

/-- The rational value of a number token. -/
def toQ (m e : ℤ) : ℚ :=
  if 0 ≤ e then (m : ℚ) * 10 ^ e.toNat else (m : ℚ) / 10 ^ (-e).toNat

/-- The command alphabet CMDS = MmLlCcQqZz (vectorizer.py line 125). -/
def isCmdChar (c : Char) : Bool :=
  c = 'M' ∨ c = 'm' ∨ c = 'L' ∨ c = 'l' ∨ c = 'C' ∨ c = 'c' ∨
  c = 'Q' ∨ c = 'q' ∨ c = 'Z' ∨ c = 'z'

/-- Value of a list of decimal digit characters. -/
def digitsVal (l : List Char) : ℕ :=
  l.foldl (fun a c => 10 * a + (c.toNat - 48)) 0

/-- Optional exponent part [eE][-+]?digits+ of the number regex; when the
letter is present but no digits follow, the exponent group does not match
and the token ends before the letter. -/
def withExp (m e : ℤ) (cs : List Char) : (ℤ × ℤ) × List Char :=
  match cs with
  | c :: r =>
    if c = 'e' ∨ c = 'E' then
      let (es, r2) :=
        match r with
        | '+' :: rr => ((1 : ℤ), rr)
        | '-' :: rr => ((-1 : ℤ), rr)
        | rr => ((1 : ℤ), rr)
      let (d, r3) := r2.span Char.isDigit
      if d.isEmpty then ((m, e), cs)
      else ((m, e + es * digitsVal d), r3)
    else ((m, e), cs)
  | [] => ((m, e), cs)

/-- Scan one number of the lexer regex
[-+]?(?:digits+ .? digits* | . digits+)(?:[eE][-+]?digits+)? at the head
of the character list; none when no number starts here. -/
def scanNum (cs : List Char) : Option ((ℤ × ℤ) × List Char) :=
  let (sgn, cs1) :=
    match cs with
    | '+' :: r => ((1 : ℤ), r)
    | '-' :: r => ((-1 : ℤ), r)
    | r => ((1 : ℤ), r)
  let (d1, r1) := cs1.span Char.isDigit
  if d1.isEmpty then
    match r1 with
    | '.' :: r2 =>
      let (d2, r3) := r2.span Char.isDigit
      if d2.isEmpty then none
      else some (withExp (sgn * digitsVal d2) (-(d2.length : ℤ)) r3)
    | _ => none
  else
    match r1 with
    | '.' :: r2 =>
      let (d2, r3) := r2.span Char.isDigit
      some (withExp (sgn * digitsVal (d1 ++ d2)) (-(d2.length : ℤ)) r3)
    | _ => some (withExp (sgn * digitsVal d1) 0 r1)

/-- The re.findall scan: at each position match a command letter or a
number, otherwise skip one character.  Fuel-driven with one unit per
input character (every match consumes at least one character). -/
def tokGo : ℕ → List Char → List SvgTok
  | 0, _ => []
  | _ + 1, [] => []
  | f + 1, c :: rest =>
    if isCmdChar c then .cmd c :: tokGo f rest
    else
      match scanNum (c :: rest) with
      | some ((m, e), rest2) => .num m e :: tokGo f rest2
      | none => tokGo f rest

/-- The token stream of one d attribute (vectorizer.py lines 116-119). -/
def svgTokenize (d : String) : List SvgTok :=
  tokGo d.data.length d.data

/-! ## vectorizer.py: SVG-path to PDF operators -/

/-- A PDF path operator emitted by the transcoder, with its already
transformed glyph-frame coordinates. -/
inductive PdfOp where
  | move (x y : ℚ)
  | line (x y : ℚ)
  | curve (x1 y1 x2 y2 x y : ℚ)
  | closePath
deriving DecidableEq

/-- fx (vectorizer.py lines 109-110): x_glyph = svg_x * s. -/
def fxOp (s v : ℚ) : ℚ := v * s

/-- fy (vectorizer.py lines 112-113): y_glyph = (h_px - svg_y) * s. -/
def fyOp (s hpx v : ℚ) : ℚ := (hpx - v) * s

/-- First elevated control point of the quadratic-to-cubic conversion
(vectorizer.py line 194, per coordinate): P0 + 2/3 (Q - P0). -/
def quadCp1 (p0 q : ℚ) : ℚ := p0 + 2 / 3 * (q - p0)

/-- Second elevated control point (vectorizer.py line 195, per
coordinate): P1 + 2/3 (Q - P1). -/
def quadCp2 (p1 q : ℚ) : ℚ := p1 + 2 / 3 * (q - p1)

/-- The implicit-lineto loop shared by M/m (after the initial point) and
L/l: consume coordinate pairs while the next token is a number; a pair
broken off by exhaustion or a command letter is the Python IndexError /
ValueError from num(), modelled as error. -/
def linetos (rel : Bool) (s hpx : ℚ) :
    List SvgTok → ℚ → ℚ → Except Unit (List PdfOp × ℚ × ℚ × List SvgTok)
  | .num m1 e1 :: .num m2 e2 :: r2, cx, cy =>
    let x := if rel then cx + toQ m1 e1 else toQ m1 e1
    let y := if rel then cy + toQ m2 e2 else toQ m2 e2
    match linetos rel s hpx r2 x y with
    | .ok (ops, cx2, cy2, r3) => .ok (.line (fxOp s x) (fyOp s hpx y) :: ops, cx2, cy2, r3)
    | .error e => .error e
  | .num _ _ :: _, _, _ => .error ()
  | ts, cx, cy => .ok ([], cx, cy, ts)

/-- The C/c loop (vectorizer.py lines 173-187): six coordinates per
cubic while the next token is a number. -/
def curves (rel : Bool) (s hpx : ℚ) :
    List SvgTok → ℚ → ℚ → Except Unit (List PdfOp × ℚ × ℚ × List SvgTok)
  | .num m1 e1 :: .num m2 e2 :: .num m3 e3 :: .num m4 e4 :: .num m5 e5 :: .num m6 e6 :: r6,
    cx, cy =>
    let x1 := if rel then cx + toQ m1 e1 else toQ m1 e1
    let y1 := if rel then cy + toQ m2 e2 else toQ m2 e2
    let x2 := if rel then cx + toQ m3 e3 else toQ m3 e3
    let y2 := if rel then cy + toQ m4 e4 else toQ m4 e4
    let x := if rel then cx + toQ m5 e5 else toQ m5 e5
    let y := if rel then cy + toQ m6 e6 else toQ m6 e6
    match curves rel s hpx r6 x y with
    | .ok (ops, cx2, cy2, r7) =>
      .ok (.curve (fxOp s x1) (fyOp s hpx y1) (fxOp s x2) (fyOp s hpx y2)
             (fxOp s x) (fyOp s hpx y) :: ops, cx2, cy2, r7)
    | .error e => .error e
  | .num _ _ :: _, _, _ => .error ()
  | ts, cx, cy => .ok ([], cx, cy, ts)

/-- The Q/q loop (vectorizer.py lines 189-206): four coordinates per
quadratic, emitted as the degree-elevated cubic. -/
def quads (rel : Bool) (s hpx : ℚ) :
    List SvgTok → ℚ → ℚ → Except Unit (List PdfOp × ℚ × ℚ × List SvgTok)
  | .num m1 e1 :: .num m2 e2 :: .num m3 e3 :: .num m4 e4 :: r4, cx, cy =>
    let qx := if rel then cx + toQ m1 e1 else toQ m1 e1
    let qy := if rel then cy + toQ m2 e2 else toQ m2 e2
    let x := if rel then cx + toQ m3 e3 else toQ m3 e3
    let y := if rel then cy + toQ m4 e4 else toQ m4 e4
    let cp1x := quadCp1 cx qx
    let cp1y := quadCp1 cy qy
    let cp2x := quadCp2 x qx
    let cp2y := quadCp2 y qy
    match quads rel s hpx r4 x y with
    | .ok (ops, cx2, cy2, r5) =>
      .ok (.curve (fxOp s cp1x) (fyOp s hpx cp1y) (fxOp s cp2x) (fyOp s hpx cp2y)
             (fxOp s x) (fyOp s hpx y) :: ops, cx2, cy2, r5)
    | .error e => .error e
  | .num _ _ :: _, _, _ => .error ()
  | ts, cx, cy => .ok ([], cx, cy, ts)

/-- The main dispatch loop of _svg_path_to_pdf_ops (vectorizer.py lines
136-209).  Fuel-driven, one unit per consumed token (callers pass the
token count, which always suffices); number tokens outside a command are
skipped as in the source. -/
def svgGo (s hpx : ℚ) : ℕ → List SvgTok → ℚ → ℚ → Except Unit (List PdfOp)
  | 0, _, _, _ => .ok []
  | _ + 1, [], _, _ => .ok []
  | f + 1, .num _ _ :: rest, cx, cy => svgGo s hpx f rest cx cy
  | f + 1, .cmd c :: rest, cx, cy =>
    if c = 'M' ∨ c = 'm' then
      match rest with
      | .num m1 e1 :: .num m2 e2 :: r2 =>
        let x := if c = 'm' then cx + toQ m1 e1 else toQ m1 e1
        let y := if c = 'm' then cy + toQ m2 e2 else toQ m2 e2
        match linetos (c = 'm') s hpx r2 x y with
        | .error e => .error e
        | .ok (ops1, cx2, cy2, r3) =>
          match svgGo s hpx f r3 cx2 cy2 with
          | .error e => .error e
          | .ok ops2 => .ok (.move (fxOp s x) (fyOp s hpx y) :: (ops1 ++ ops2))
      | _ => .error ()
    else if c = 'L' ∨ c = 'l' then
      match linetos (c = 'l') s hpx rest cx cy with
      | .error e => .error e
      | .ok (ops1, cx2, cy2, r3) =>
        match svgGo s hpx f r3 cx2 cy2 with
        | .error e => .error e
        | .ok ops2 => .ok (ops1 ++ ops2)
    else if c = 'C' ∨ c = 'c' then
      match curves (c = 'c') s hpx rest cx cy with
      | .error e => .error e
      | .ok (ops1, cx2, cy2, r3) =>
        match svgGo s hpx f r3 cx2 cy2 with
        | .error e => .error e
        | .ok ops2 => .ok (ops1 ++ ops2)
    else if c = 'Q' ∨ c = 'q' then
      match quads (c = 'q') s hpx rest cx cy with
      | .error e => .error e
      | .ok (ops1, cx2, cy2, r3) =>
        match svgGo s hpx f r3 cx2 cy2 with
        | .error e => .error e
        | .ok ops2 => .ok (ops1 ++ ops2)
    else if c = 'Z' ∨ c = 'z' then
      match svgGo s hpx f rest cx cy with
      | .error e => .error e
      | .ok ops2 => .ok (.closePath :: ops2)
    else svgGo s hpx f rest cx cy

/-- _svg_path_to_pdf_ops (vectorizer.py lines 90-211) on one d string,
returning the structured operator list (w_px is accepted but, as in the
source, unused). -/
def svgPathToPdfOps (d : String) (wPx hPx : ℚ) (em : ℚ := 1000) :
    Except Unit (List PdfOp) :=
  svgGo (em / hPx) hPx (svgTokenize d).length (svgTokenize d) 0 0

/-- Four-decimal fixed-point rendering of a scaled integer (the %.4f of
fx/fy after rounding). -/
def fmt4Int (n : ℤ) : String :=
  (if n < 0 then "-" else "") ++ decRepr (n.natAbs / 10000) ++ "." ++
    (⟨List.replicate (4 - (decChars (n.natAbs % 10000 + 1) (n.natAbs % 10000)).length) '0' ++
      decChars (n.natAbs % 10000 + 1) (n.natAbs % 10000)⟩ : String)

/-- Python's %.4f on an exact rational. -/
def fmt4 (v : ℚ) : String :=
  fmt4Int (roundHE (v * 10000))

/-- The emitted text of one operator (the f-string bodies of
vectorizer.py lines 146-209). -/
def renderOp : PdfOp → String
  | .move x y => fmt4 x ++ " " ++ fmt4 y ++ " m"
  | .line x y => fmt4 x ++ " " ++ fmt4 y ++ " l"
  | .curve x1 y1 x2 y2 x y =>
    fmt4 x1 ++ " " ++ fmt4 y1 ++ " " ++ fmt4 x2 ++ " " ++ fmt4 y2 ++ " " ++
      fmt4 x ++ " " ++ fmt4 y ++ " c"
  | .closePath => "h"

/-- The newline-joined operator text of a path. -/
def renderOps (ops : List PdfOp) : String :=
  String.intercalate "\n" (ops.map renderOp)

/-- The per-d loop of glyph_to_pdf_ops (vectorizer.py lines 245-249):
transcode each d string, keep non-empty results, propagate exceptions. -/
def collectOps (wPx hPx : ℚ) : List String → Except Unit (List (List PdfOp))
  | [] => .ok []
  | d :: ds =>
    match svgPathToPdfOps d wPx hPx with
    | .error e => .error e
    | .ok ops =>
      match collectOps wPx hPx ds with
      | .error e => .error e
      | .ok rest => .ok (if ops.isEmpty then rest else ops :: rest)

/-- glyph_to_pdf_ops (vectorizer.py lines 221-254) at the structured
level.  The svg argument models the external backends composed with the
d-attribute extraction (_parse_svg_paths): none is "all backends failed
or returned empty text", some ds the extracted d strings.  ok none is
the dropped glyph, error the propagated Python exception. -/
def glyphOpsResult (wPx hPx : ℕ) (svg : Option (List String)) :
    Except Unit (Option (List PdfOp)) :=
  if wPx = 0 ∨ hPx = 0 then .ok none
  else
    match svg with
    | none => .ok none
    | some ds =>
      if ds = [] then .ok none
      else
        match collectOps (wPx : ℚ) (hPx : ℚ) ds with
        | .error e => .error e
        | .ok all => if all = [] then .ok none else .ok (some all.flatten)

/-- glyph_to_pdf_ops rendered to the returned string:
"\n".join(all_ops) + "\nf" (joining the flattened operator list is the
same string as joining the per-path texts, since only non-empty op lists
are kept). -/
def glyphToPdfOps (wPx hPx : ℕ) (svg : Option (List String)) :
    Except Unit (Option String) :=
  match glyphOpsResult wPx hPx svg with
  | .error e => .error e
  | .ok none => .ok none
  | .ok (some ops) => .ok (some (renderOps ops ++ "\nf"))

/-- advance_width (vectorizer.py lines 257-261). -/
def advanceWidth (wPx hPx : ℕ) : ℚ :=
  if hPx = 0 then EM else EM * wPx / hPx

/-- Whether an operator list begins with a moveto. -/
def headIsMoveto (l : List PdfOp) : Bool :=
  match l with
  | .move _ _ :: _ => true
  | _ => false

/-! ## clearscan_engine.py -/

/-- The argparse surface of clearscan_engine.py (lines 22-30). -/
structure CsArgs where
  pdf : String
  out : String
  lang : String
  mode : String
  forceOcr : Bool
  outputType : String
  optimize : String
deriving DecidableEq

/-- The full ocrmypdf command line (clearscan_engine.py lines 36-43). -/
def buildCmd (a : CsArgs) : List String :=
  (["ocrmypdf", "--optimize", a.optimize, "--jobs", "2", "--language", a.lang] ++
    (if a.forceOcr then [] else ["--skip-text"]) ++
    (if a.mode = "best" then ["--deskew", "--clean", "--rotate-pages"] else [])) ++
  ["--output-type", a.outputType, a.pdf, a.out]

/-- ASCII lowercase of one character (the tool outputs tested by the
source are ASCII). -/
def lowerChar (c : Char) : Char :=
  if 'A' ≤ c ∧ c ≤ 'Z' then Char.ofNat (c.toNat + 32) else c

/-- Python str.lower() on ASCII text. -/
def strLower (s : String) : String :=
  ⟨s.data.map lowerChar⟩

/-- Whether the first list occurs at the head of the second. -/
def listPrefixOf : List Char → List Char → Bool
  | [], _ => true
  | _ :: _, [] => false
  | a :: as, b :: bs => a = b && listPrefixOf as bs

/-- Whether the first list occurs contiguously inside the second. -/
def listInfixOf (n : List Char) : List Char → Bool
  | [] => n.isEmpty
  | h :: t => listPrefixOf n (h :: t) || listInfixOf n t

/-- Python's "needle in haystack" on strings. -/
def containsStr (needle hay : String) : Bool :=
  listInfixOf needle.data hay.data

/-- The missing-tool test of clearscan_engine.py lines 51 and 59, on the
already lowercased output. -/
def missingCond (tool lower : String) : Bool :=
  containsStr tool lower &&
    (containsStr "was not found" lower || containsStr "could not find program" lower ||
      containsStr "could not be executed" lower)

/-- Reduce the optimisation level of the first --optimize flag to 1
(clearscan_engine.py lines 60-64). -/
def setOptimize1 : List String → List String
  | [] => []
  | "--optimize" :: _ :: rest => "--optimize" :: "1" :: rest
  | x :: rest => x :: setOptimize1 rest

/-- main (clearscan_engine.py lines 21-70) given a runner for the
ocrmypdf child process: returns the list of attempted command lines in
order, and ok () for a normal return or error txt for the raised
RuntimeError(txt). -/
def clearscanRun (a : CsArgs) (runner : List String → ℤ × String) :
    List (List String) × Except String Unit :=
  let cmd := buildCmd a
  let r1 := runner cmd
  if r1.1 = 0 then ([cmd], .ok ())
  else
    let lower1 := strLower r1.2
    if cmd.contains "--clean" && missingCond "unpaper" lower1 then
      let cmd2 := cmd.filter (fun c => c ≠ "--clean")
      let r2 := runner cmd2
      if r2.1 = 0 then ([cmd, cmd2], .ok ())
      else
        let lower2 := strLower r2.2
        if cmd2.contains "--optimize" && missingCond "pngquant" lower2 then
          let cmd3 := setOptimize1 cmd2
          let r3 := runner cmd3
          if r3.1 = 0 then ([cmd, cmd2, cmd3], .ok ())
          else ([cmd, cmd2, cmd3], .error r3.2)
        else ([cmd, cmd2], .error r2.2)
    else if cmd.contains "--optimize" && missingCond "pngquant" lower1 then
      let cmd3 := setOptimize1 cmd
      let r3 := runner cmd3
      if r3.1 = 0 then ([cmd, cmd3], .ok ())
      else ([cmd, cmd3], .error r3.2)
    else ([cmd], .error r1.2)

/-- The exit status of the clearscan_engine.py process: 0 on a normal
return of main(), 1 when the raised RuntimeError escapes (CPython exits
with status 1 on an uncaught exception). -/
def clearscanExit (a : CsArgs) (runner : List String → ℤ × String) : ℤ :=
  match (clearscanRun a runner).2 with
  | .ok _ => 0
  | .error _ => 1

/-! ## Bezier evaluation (for the degree-elevation property) -/

/-- Quadratic Bezier curve evaluation, per coordinate. -/
def quadBezier (p0 q p1 t : ℚ) : ℚ :=
  (1 - t) ^ 2 * p0 + 2 * t * (1 - t) * q + t ^ 2 * p1

/-- Cubic Bezier curve evaluation, per coordinate. -/
def cubicBezier (p0 c1 c2 p1 t : ℚ) : ℚ :=
  (1 - t) ^ 3 * p0 + 3 * t * (1 - t) ^ 2 * c1 + 3 * t ^ 2 * (1 - t) * c2 + t ^ 3 * p1

/-! ## Claim theorems -/

/-- C8: for every start point P0, quadratic control point Q and end point
P1, the cubic produced by the transcoder's degree elevation
(cp1 = P0 + 2/3 (Q − P0), cp2 = P1 + 2/3 (Q − P1), endpoints P0 and P1,
the formulas used in the Q/q cases of the transcoder) evaluated at
t = 1/2 equals the original quadratic Bezier (P0, Q, P1) at t = 1/2,
exactly, per coordinate. -/
theorem claim_C8 (p0 q p1 : ℚ) :
    cubicBezier p0 (quadCp1 p0 q) (quadCp2 p1 q) p1 (1 / 2) = quadBezier p0 q p1 (1 / 2) := by
  unfold cubicBezier quadCp1 quadCp2 quadBezier
  ring

/-- C5: char_code is the identity on codepoints up to 0xFF and
cp % 128 + 128 above, so it always lies in [0, 255]; every character
with ord above 0xFF gets the uniXXXX glyph name with the
(zero-padded-to-four) uppercase-hex codepoint, and the octal escape
emitted into the overlay denotes exactly char_code of the character. -/
theorem claim_C5 (c : Char) :
    (c.toNat ≤ 0xFF → charCode c = c.toNat) ∧
    (0xFF < c.toNat → charCode c = c.toNat % 128 + 128) ∧
    charCode c ≤ 255 ∧
    (0xFF < c.toNat → glyphName c = "uni" ++ hexPad4 c.toNat) ∧
    encodeChar c = "\\" ++ oct3 (charCode c) ∧
    octEscVal (oct3 (charCode c)) = charCode c := by
  refine ⟨fun h => by simp [charCode, h], fun h => by simp [charCode]; omega, ?_, ?_, rfl, ?_⟩
  · by_cases h : c.toNat ≤ 255
    · simp [charCode, h]
    · simp [charCode, h]
      omega
  · intro h
    exact glyphName_of_gt c (by omega)
  · apply octEscVal_oct3
    by_cases h : c.toNat ≤ 255
    · simp [charCode, h]
      omega
    · simp [charCode, h]
      omega

/-- C5 witness: the theorem applied at the concrete character U+0100. -/
theorem claim_C5_witness :
    (0xFF < 'Ā'.toNat) ∧ charCode 'Ā' = 'Ā'.toNat % 128 + 128 ∧
      glyphName 'Ā' = "uni" ++ hexPad4 'Ā'.toNat ∧
      octEscVal (oct3 (charCode 'Ā')) = charCode 'Ā' :=
  ⟨by decide, (claim_C5 'Ā').2.1 (by decide), (claim_C5 'Ā').2.2.2.1 (by decide),
    (claim_C5 'Ā').2.2.2.2.2⟩

/-- C4 counterexample: two boxes of equal (maximal) area on the same
page, listed with the larger (y1, x1) tuple first; Python's max keeps
the first one, while the claim requires the smallest
(page_index, y1, x1) tuple, i.e. the second one. -/
theorem claim_C4_counterexample :
    pickRepresentative
        [⟨'A', 10, 50, 20, 60, 0⟩, ⟨'A', 5, 10, 15, 20, 0⟩] =
      some ⟨'A', 10, 50, 20, 60, 0⟩ ∧
    boxArea ⟨'A', 10, 50, 20, 60, 0⟩ = boxArea ⟨'A', 5, 10, 15, 20, 0⟩ ∧
    (⟨'A', 10, 50, 20, 60, 0⟩ : CharBox).pageIdx = (⟨'A', 5, 10, 15, 20, 0⟩ : CharBox).pageIdx ∧
    (⟨'A', 5, 10, 15, 20, 0⟩ : CharBox).y1 < (⟨'A', 10, 50, 20, 60, 0⟩ : CharBox).y1 ∧
    (⟨'A', 10, 50, 20, 60, 0⟩ : CharBox) ≠ ⟨'A', 5, 10, 15, 20, 0⟩ := by
  refine ⟨?_, by decide, by decide, by decide, by decide⟩
  simp [pickRepresentative, boxArea]

/-- The foldl of pick_representative keeps the first element of maximal
area: the initial accumulator and list split into a strictly smaller
prefix, the result, and a no-larger suffix. -/
theorem pickRep_foldl_spec (xs : List CharBox) (acc : CharBox) :
    (xs.foldl (fun a b => if boxArea a < boxArea b then b else a) acc = acc ∧
      ∀ x ∈ xs, boxArea x ≤ boxArea acc) ∨
    (∃ l1 l2,
      xs = l1 ++ (xs.foldl (fun a b => if boxArea a < boxArea b then b else a) acc) :: l2 ∧
      boxArea acc < boxArea (xs.foldl (fun a b => if boxArea a < boxArea b then b else a) acc) ∧
      (∀ x ∈ l1, boxArea x < boxArea (xs.foldl (fun a b => if boxArea a < boxArea b then b else a) acc)) ∧
      (∀ x ∈ l2, boxArea x ≤ boxArea (xs.foldl (fun a b => if boxArea a < boxArea b then b else a) acc))) := by
  induction xs generalizing acc with
  | nil => exact Or.inl ⟨rfl, by simp⟩
  | cons b bs ih =>
    by_cases hb : boxArea acc < boxArea b
    · have hfold : (b :: bs).foldl (fun a b => if boxArea a < boxArea b then b else a) acc =
          bs.foldl (fun a b => if boxArea a < boxArea b then b else a) b := by
        simp [List.foldl_cons, if_pos hb]
      rw [hfold]
      rcases ih b with ⟨heq, hle⟩ | ⟨l1, l2, hsplit, hlt, hl1, hl2⟩
      · rw [heq]
        exact Or.inr ⟨[], bs, by simp, hb, by simp, by simpa using hle⟩
      · refine Or.inr ⟨b :: l1, l2, by rw [List.cons_append, ← hsplit], lt_trans hb hlt, ?_, hl2⟩
        intro x hx
        rcases List.mem_cons.1 hx with hx | hx
        · exact hx ▸ hlt
        · exact hl1 x hx
    · have hfold : (b :: bs).foldl (fun a b => if boxArea a < boxArea b then b else a) acc =
          bs.foldl (fun a b => if boxArea a < boxArea b then b else a) acc := by
        simp [List.foldl_cons, if_neg hb]
      rw [hfold]
      rcases ih acc with ⟨heq, hle⟩ | ⟨l1, l2, hsplit, hlt, hl1, hl2⟩
      · refine Or.inl ⟨heq, fun x hx => ?_⟩
        rcases List.mem_cons.1 hx with hx | hx
        · subst hx; omega
        · exact hle x hx
      · refine Or.inr ⟨b :: l1, l2, by rw [List.cons_append, ← hsplit], hlt, ?_, hl2⟩
        intro x hx
        rcases List.mem_cons.1 hx with hx | hx
        · subst hx; omega
        · exact hl1 x hx

/-- C4 amended: for every non-empty instance list, pick_representative
returns a box of maximal area (x2−x1)(y2−y1); ties are broken by the
earliest occurrence in the aggregated list (pages in ascending order,
boxes in extraction order within a page), not by the smallest
(page_index, y1, x1) tuple: every earlier instance has strictly smaller
area and every later one no larger area. -/
theorem claim_C4_amended (l : List CharBox) (hl : l ≠ []) :
    ∃ b l1 l2, pickRepresentative l = some b ∧ l = l1 ++ b :: l2 ∧
      (∀ x ∈ l1, boxArea x < boxArea b) ∧ (∀ x ∈ l2, boxArea x ≤ boxArea b) := by
  cases l with
  | nil => exact absurd rfl hl
  | cons x xs =>
    rcases pickRep_foldl_spec xs x with ⟨heq, hle⟩ | ⟨l1, l2, hsplit, hlt, hl1, hl2⟩
    · exact ⟨x, [], xs, by simp [pickRepresentative, heq], by simp, by simp, by simpa using hle⟩
    · refine ⟨_, x :: l1, l2, by simp [pickRepresentative], by rw [List.cons_append, ← hsplit], ?_, hl2⟩
      intro y hy
      rcases List.mem_cons.1 hy with hy | hy
      · exact hy ▸ hlt
      · exact hl1 y hy

/-- C4 witness: the amended theorem applied at a concrete two-element
instance list. -/
theorem claim_C4_witness :
    ∃ b l1 l2,
      pickRepresentative [⟨'A', 0, 0, 2, 2, 0⟩, ⟨'B', 0, 0, 1, 1, 1⟩] = some b ∧
      [(⟨'A', 0, 0, 2, 2, 0⟩ : CharBox), ⟨'B', 0, 0, 1, 1, 1⟩] = l1 ++ b :: l2 ∧
      (∀ x ∈ l1, boxArea x < boxArea b) ∧ (∀ x ∈ l2, boxArea x ≤ boxArea b) :=
  claim_C4_amended [⟨'A', 0, 0, 2, 2, 0⟩, ⟨'B', 0, 0, 1, 1, 1⟩] (by decide)

/-- C7 counterexample: a raw OCR row whose right edge exceeds the page
width passes the extractor unclamped — the invariant
x2 ≤ page.width_px fails for a 10-pixel-wide page. -/
theorem claim_C7_counterexample :
    extractCharBoxes 10 0 [⟨'A', 0, 0, 15, 5⟩] = [⟨'A', 0, 5, 15, 10, 0⟩] ∧
    ∃ b ∈ extractCharBoxes 10 0 [⟨'A', 0, 0, 15, 5⟩], ¬(b.x2 ≤ 10) := by
  refine ⟨by decide, ⟨'A', 0, 5, 15, 10, 0⟩, by decide, by decide⟩

/-- C7 amended: every extracted CharBox is a flipped surviving raw row
(y1 = height − y2_raw, y2 = height − y1_raw, same page index), rows with
whitespace codepoints or empty after the flip are dropped, and
x1 < x2 ∧ y1 < y2 always holds; the full containment
0 ≤ x1 < x2 ≤ width ∧ 0 ≤ y1 < y2 ≤ height holds provided the raw OCR
coordinates lie within the page bounds (the code never clamps them). -/
theorem processRow_some_iff {h : ℤ} {pageIdx : ℕ} {r : RawBox} {b : CharBox} :
    processRow h pageIdx r = some b ↔
      ¬isPyWhitespace r.ch = true ∧ r.x1 < r.x2 ∧ h - r.y2 < h - r.y1 ∧
        b = ⟨r.ch, r.x1, h - r.y2, r.x2, h - r.y1, pageIdx⟩ := by
  unfold processRow
  by_cases hws : isPyWhitespace r.ch
  · simp [hws]
  · rw [if_neg hws]
    by_cases hdrop : r.x2 ≤ r.x1 ∨ h - r.y1 ≤ h - r.y2
    · rw [if_pos hdrop]
      simp only [false_iff, reduceCtorEq]
      intro hcon
      omega
    · rw [if_neg hdrop]
      push_neg at hdrop
      constructor
      · intro hb
        exact ⟨hws, hdrop.1, by omega, (Option.some.inj hb).symm⟩
      · intro hb
        rw [hb.2.2.2]

theorem claim_C7_amended (w h : ℤ) (pageIdx : ℕ) (rows : List RawBox)
    (hw : ∀ r ∈ rows, 0 ≤ r.x1 ∧ r.x2 ≤ w ∧ 0 ≤ r.y1 ∧ r.y2 ≤ h) :
    (∀ b ∈ extractCharBoxes h pageIdx rows,
      (0 ≤ b.x1 ∧ b.x1 < b.x2 ∧ b.x2 ≤ w ∧ 0 ≤ b.y1 ∧ b.y1 < b.y2 ∧ b.y2 ≤ h) ∧
      ∃ r ∈ rows, ¬isPyWhitespace r.ch ∧
        b = ⟨r.ch, r.x1, h - r.y2, r.x2, h - r.y1, pageIdx⟩) ∧
    (∀ r ∈ rows, (isPyWhitespace r.ch ∨ r.x2 ≤ r.x1 ∨ (h - r.y1) ≤ (h - r.y2)) →
      processRow h pageIdx r = none) := by
  constructor
  · intro b hb
    rw [extractCharBoxes, List.mem_filterMap] at hb
    obtain ⟨r, hr, hpr⟩ := hb
    rw [processRow_some_iff] at hpr
    obtain ⟨hws, hx, hy, hb⟩ := hpr
    obtain ⟨h1, h2, h3, h4⟩ := hw r hr
    subst hb
    refine ⟨?_, r, hr, hws, rfl⟩
    dsimp only
    omega
  · intro r hr hcond
    cases hres : processRow h pageIdx r with
    | none => rfl
    | some b =>
      rw [processRow_some_iff] at hres
      rcases hcond with hc | hc | hc
      · exact absurd hc hres.1
      · omega
      · omega

/-- C7 witness: the amended theorem applied at a concrete in-bounds
row. -/
theorem claim_C7_witness :
    (∀ b ∈ extractCharBoxes 10 0 [⟨'A', 1, 1, 3, 4⟩],
      (0 ≤ b.x1 ∧ b.x1 < b.x2 ∧ b.x2 ≤ 10 ∧ 0 ≤ b.y1 ∧ b.y1 < b.y2 ∧ b.y2 ≤ 10) ∧
      ∃ r ∈ [(⟨'A', 1, 1, 3, 4⟩ : RawBox)], ¬isPyWhitespace r.ch ∧
        b = ⟨r.ch, r.x1, 10 - r.y2, r.x2, 10 - r.y1, 0⟩) ∧
    (∀ r ∈ [(⟨'A', 1, 1, 3, 4⟩ : RawBox)],
      (isPyWhitespace r.ch ∨ r.x2 ≤ r.x1 ∨ ((10 : ℤ) - r.y1) ≤ (10 - r.y2)) →
      processRow 10 0 r = none) :=
  claim_C7_amended 10 10 0 [⟨'A', 1, 1, 3, 4⟩] (by decide)

/-! ## Helper lemmas for the overlay-stream claims -/

theorem countTok_append (l1 l2 : List (List StreamTok)) (t : StreamTok) :
    countTok (l1 ++ l2) t = countTok l1 t + countTok l2 t := by
  simp [countTok, List.map_append, List.sum_append]

theorem countTok_flatMap (ll : List CharBox) (f : CharBox → List (List StreamTok))
    (t : StreamTok) :
    countTok (ll.flatMap f) t = (ll.map (fun a => countTok (f a) t)).sum := by
  induction ll with
  | nil => simp [countTok]
  | cons a as ih =>
    simp only [List.flatMap_cons, countTok_append, ih, List.map_cons, List.sum_cons]

theorem infix_flatMap_of_mem {a : CharBox} {l : List CharBox}
    (h : a ∈ l) (f : CharBox → List (List StreamTok)) : f a <:+: l.flatMap f := by
  induction l with
  | nil => cases h
  | cons x xs ih =>
    rcases List.mem_cons.1 h with h | h
    · subst h
      exact ⟨[], xs.flatMap f, by simp [List.flatMap_cons]⟩
    · obtain ⟨s, t, heq⟩ := ih h
      exact ⟨f x ++ s, t, by simp [List.flatMap_cons, ← heq]⟩

theorem boxLines_pos (p : ℚ) (m : GlyphMap) (fn : String) (box : CharBox)
    (hmem : (lookupGlyph m box.char).isSome)
    (hw : 0 < ptQ ((box.x2 : ℚ) - box.x1)) (hh : 0 < ptQ ((box.y2 : ℚ) - box.y1)) :
    boxLines p m fn box = [rectLine (ptQ box.x1) (p - ptQ box.y2)
        (ptQ ((box.x2 : ℚ) - box.x1)) (ptQ ((box.y2 : ℚ) - box.y1)),
      glyphLine fn (ptQ ((box.y2 : ℚ) - box.y1)) (ptQ box.x1) (p - ptQ box.y2)
        (charCode box.char)] := by
  unfold boxLines
  rw [if_pos hmem]
  dsimp only
  rw [if_neg (by push_neg; exact ⟨hw, hh⟩)]

theorem boxLines_skip (p : ℚ) (m : GlyphMap) (fn : String) (box : CharBox)
    (h : lookupGlyph m box.char = none ∨ ptQ ((box.x2 : ℚ) - box.x1) ≤ 0 ∨
      ptQ ((box.y2 : ℚ) - box.y1) ≤ 0) :
    boxLines p m fn box = [] := by
  unfold boxLines
  by_cases h1 : (lookupGlyph m box.char).isSome
  · rw [if_pos h1]
    dsimp only
    rcases h with h | h
    · rw [h] at h1
      cases h1
    · rw [if_pos h]
  · rw [if_neg h1]

theorem boxLines_shape (p : ℚ) (m : GlyphMap) (fn : String) (box : CharBox) :
    boxLines p m fn box = [] ∨
    boxLines p m fn box = [rectLine (ptQ box.x1) (p - ptQ box.y2)
        (ptQ ((box.x2 : ℚ) - box.x1)) (ptQ ((box.y2 : ℚ) - box.y1)),
      glyphLine fn (ptQ ((box.y2 : ℚ) - box.y1)) (ptQ box.x1) (p - ptQ box.y2)
        (charCode box.char)] := by
  unfold boxLines
  by_cases h1 : (lookupGlyph m box.char).isSome
  · rw [if_pos h1]
    dsimp only
    by_cases h2 : ptQ ((box.x2 : ℚ) - box.x1) ≤ 0 ∨ ptQ ((box.y2 : ℚ) - box.y1) ≤ 0
    · rw [if_pos h2]
      exact Or.inl rfl
    · rw [if_neg h2]
      exact Or.inr rfl
  · rw [if_neg h1]
    exact Or.inl rfl

theorem count_rectLine_q (x y w h : ℚ) : List.count (StreamTok.s "q") (rectLine x y w h) = 0 := by
  simp [rectLine, List.count_cons]

theorem count_rectLine_Q (x y w h : ℚ) : List.count (StreamTok.s "Q") (rectLine x y w h) = 0 := by
  simp [rectLine, List.count_cons]

theorem count_rectLine_BT (x y w h : ℚ) :
    List.count (StreamTok.s "BT") (rectLine x y w h) = 0 := by
  simp [rectLine, List.count_cons]

theorem count_rectLine_ET (x y w h : ℚ) :
    List.count (StreamTok.s "ET") (rectLine x y w h) = 0 := by
  simp [rectLine, List.count_cons]

theorem count_glyphLine_q (size x y : ℚ) (code : ℕ) :
    List.count (StreamTok.s "q") (glyphLine "VF1" size x y code) = 0 := by
  simp [glyphLine, List.count_cons]

theorem count_glyphLine_Q (size x y : ℚ) (code : ℕ) :
    List.count (StreamTok.s "Q") (glyphLine "VF1" size x y code) = 0 := by
  simp [glyphLine, List.count_cons]

theorem count_glyphLine_BT (size x y : ℚ) (code : ℕ) :
    List.count (StreamTok.s "BT") (glyphLine "VF1" size x y code) = 1 := by
  simp [glyphLine, List.count_cons]

theorem count_glyphLine_ET (size x y : ℚ) (code : ℕ) :
    List.count (StreamTok.s "ET") (glyphLine "VF1" size x y code) = 1 := by
  simp [glyphLine, List.count_cons]

theorem countTok_boxLines_q (p : ℚ) (m : GlyphMap) (box : CharBox) :
    countTok (boxLines p m "VF1" box) (StreamTok.s "q") = 0 := by
  rcases boxLines_shape p m "VF1" box with h | h <;> rw [h] <;>
    simp [countTok, count_rectLine_q, count_glyphLine_q]

theorem countTok_boxLines_Q (p : ℚ) (m : GlyphMap) (box : CharBox) :
    countTok (boxLines p m "VF1" box) (StreamTok.s "Q") = 0 := by
  rcases boxLines_shape p m "VF1" box with h | h <;> rw [h] <;>
    simp [countTok, count_rectLine_Q, count_glyphLine_Q]

theorem countTok_boxLines_BT_ET (p : ℚ) (m : GlyphMap) (box : CharBox) :
    countTok (boxLines p m "VF1" box) (StreamTok.s "BT") =
      countTok (boxLines p m "VF1" box) (StreamTok.s "ET") := by
  rcases boxLines_shape p m "VF1" box with h | h <;> rw [h] <;>
    simp [countTok, count_rectLine_BT, count_glyphLine_BT, count_rectLine_ET, count_glyphLine_ET]

/-- C2: every overlay stream opens with q and closes with Q, q/Q and
BT/ET occur equally often; every box whose codepoint is in the font map
and whose point-space width and height are positive contributes the
white rectangle "1 g x y w h re f" with x = pt(x1),
y = page_h_pt − pt(y2), w = pt(x2−x1), h = pt(y2−y1), immediately
followed by the BT…ET text object drawing that character at font size
h_pt; boxes with absent codepoints and degenerate boxes contribute no
operators. -/
theorem claim_C2 (page : PageInfo) (m : GlyphMap) :
    (buildPageStream page m).head? = some [.s "q"] ∧
    (buildPageStream page m).getLast? = some [.s "Q"] ∧
    countTok (buildPageStream page m) (.s "q") = countTok (buildPageStream page m) (.s "Q") ∧
    countTok (buildPageStream page m) (.s "BT") =
      countTok (buildPageStream page m) (.s "ET") ∧
    (∀ box ∈ page.charBoxes, (lookupGlyph m box.char).isSome →
      0 < ptQ ((box.x2 : ℚ) - box.x1) → 0 < ptQ ((box.y2 : ℚ) - box.y1) →
      [rectLine (ptQ box.x1) (ptQ page.heightPx - ptQ box.y2)
          (ptQ ((box.x2 : ℚ) - box.x1)) (ptQ ((box.y2 : ℚ) - box.y1)),
        glyphLine "VF1" (ptQ ((box.y2 : ℚ) - box.y1)) (ptQ box.x1)
          (ptQ page.heightPx - ptQ box.y2) (charCode box.char)] <:+:
        buildPageStream page m) ∧
    (∀ box ∈ page.charBoxes,
      (lookupGlyph m box.char = none ∨ ptQ ((box.x2 : ℚ) - box.x1) ≤ 0 ∨
        ptQ ((box.y2 : ℚ) - box.y1) ≤ 0) →
      boxLines (ptQ page.heightPx) m "VF1" box = []) := by
  refine ⟨rfl, ?_, ?_, ?_, ?_, ?_⟩
  · unfold buildPageStream
    exact List.getLast?_concat _
  · unfold buildPageStream
    rw [countTok_append, countTok_append, countTok_append, countTok_append,
      countTok_flatMap, countTok_flatMap]
    have hq : (page.charBoxes.map
        (fun a => countTok (boxLines (ptQ page.heightPx) m "VF1" a) (StreamTok.s "q"))).sum = 0 := by
      rw [List.sum_eq_zero]
      intro x hx
      obtain ⟨b, _, rfl⟩ := List.mem_map.1 hx
      exact countTok_boxLines_q _ _ _
    have hQ : (page.charBoxes.map
        (fun a => countTok (boxLines (ptQ page.heightPx) m "VF1" a) (StreamTok.s "Q"))).sum = 0 := by
      rw [List.sum_eq_zero]
      intro x hx
      obtain ⟨b, _, rfl⟩ := List.mem_map.1 hx
      exact countTok_boxLines_Q _ _ _
    rw [hq, hQ]
    simp [countTok, List.count_cons]
  · unfold buildPageStream
    rw [countTok_append, countTok_append, countTok_append, countTok_append,
      countTok_flatMap, countTok_flatMap]
    have hmid : (page.charBoxes.map
        (fun a => countTok (boxLines (ptQ page.heightPx) m "VF1" a) (StreamTok.s "BT"))).sum =
          (page.charBoxes.map
        (fun a => countTok (boxLines (ptQ page.heightPx) m "VF1" a) (StreamTok.s "ET"))).sum := by
      congr 1
      apply List.map_congr_left
      intro b _
      exact countTok_boxLines_BT_ET _ _ _
    rw [hmid]
    simp [countTok, List.count_cons]
  · intro box hbox hmem hw hh
    have hpair := boxLines_pos (ptQ page.heightPx) m "VF1" box hmem hw hh
    have hinf : boxLines (ptQ page.heightPx) m "VF1" box <:+:
        page.charBoxes.flatMap (boxLines (ptQ page.heightPx) m "VF1") :=
      infix_flatMap_of_mem hbox _
    rw [hpair] at hinf
    refine hinf.trans ?_
    unfold buildPageStream
    exact List.infix_append _ _ _
  · intro box _ h
    exact boxLines_skip _ _ _ _ h

/-- C2 witness: the theorem applied at a one-box page (the "H" box of
the spec's end-to-end scenario at 300 DPI). -/
theorem claim_C2_witness :
    [rectLine (ptQ ((100 : ℤ) : ℚ)) (ptQ ((1000 : ℤ) : ℚ) - ptQ ((160 : ℤ) : ℚ))
        (ptQ (((140 : ℤ) : ℚ) - ((100 : ℤ) : ℚ))) (ptQ (((160 : ℤ) : ℚ) - ((100 : ℤ) : ℚ))),
      glyphLine "VF1" (ptQ (((160 : ℤ) : ℚ) - ((100 : ℤ) : ℚ))) (ptQ ((100 : ℤ) : ℚ))
        (ptQ ((1000 : ℤ) : ℚ) - ptQ ((160 : ℤ) : ℚ)) (charCode 'H')] <:+:
      buildPageStream ⟨0, 1000, 1000, 240, 240, [⟨'H', 100, 100, 140, 160, 0⟩]⟩
        [('H', 500, "ops")] :=
  (claim_C2 ⟨0, 1000, 1000, 240, 240, [⟨'H', 100, 100, 140, 160, 0⟩]⟩
      [('H', 500, "ops")]).2.2.2.2.1 ⟨'H', 100, 100, 140, 160, 0⟩
    (List.mem_singleton.2 rfl) (by decide) (by norm_num [ptQ]) (by norm_num [ptQ])

/-! ## Helper lemmas for the overlay writer (claim C10) -/

theorem buildPageStream_nofont (info : PageInfo) (m : GlyphMap)
    (hnone : ∀ b ∈ info.charBoxes, lookupGlyph m b.char = none) :
    buildPageStream info m = [[.s "q"], [.s "Q"]] := by
  unfold buildPageStream
  rw [List.flatMap_eq_nil_iff.2 (fun b hb => boxLines_skip _ _ _ _ (Or.inl (hnone b hb)))]
  rfl

theorem streamBlank_buildPageStream (info : PageInfo) (m : GlyphMap) :
    streamBlank (buildPageStream info m) = false := by
  unfold streamBlank buildPageStream
  simp

theorem overlayStep_get_other (m : GlyphMap) (obj : ℕ) (fn : String) (doc : List PdfPage)
    (info : PageInfo) (j : ℕ) (hj : info.pageIdx ≠ j) :
    (overlayStep m obj fn doc info)[j]? = doc[j]? := by
  unfold overlayStep
  by_cases h1 : info.charBoxes = []
  · rw [if_pos h1]
  · rw [if_neg h1]
    dsimp only
    by_cases h2 : streamBlank (buildPageStream info m fn) = true
    · rw [if_pos h2]
    · rw [if_neg h2]
      cases hdoc : doc[info.pageIdx]? with
      | none => rfl
      | some pg => exact List.getElem?_set_ne hj

theorem overlay_foldl_notouch (m : GlyphMap) (obj : ℕ) (fn : String) (pages : List PageInfo)
    (j : ℕ) (h : ∀ p ∈ pages, p.pageIdx ≠ j) :
    ∀ doc : List PdfPage, (pages.foldl (overlayStep m obj fn) doc)[j]? = doc[j]? := by
  induction pages with
  | nil => intro doc; rfl
  | cons p rest ih =>
    intro doc
    rw [List.foldl_cons, ih (fun q hq => h q (List.mem_cons_of_mem p hq)),
      overlayStep_get_other _ _ _ _ _ _ (h p (List.mem_cons_self p rest))]

theorem overlayStep_get_agree (m : GlyphMap) (obj : ℕ) (fn : String)
    (doc doc2 : List PdfPage) (info : PageInfo)
    (hget : doc2[info.pageIdx]? = doc[info.pageIdx]?) :
    (overlayStep m obj fn doc2 info)[info.pageIdx]? =
      (overlayStep m obj fn doc info)[info.pageIdx]? := by
  unfold overlayStep
  by_cases h1 : info.charBoxes = []
  · rw [if_pos h1, if_pos h1]
    exact hget
  · rw [if_neg h1, if_neg h1]
    dsimp only
    by_cases h2 : streamBlank (buildPageStream info m fn) = true
    · rw [if_pos h2, if_pos h2]
      exact hget
    · rw [if_neg h2, if_neg h2, hget]
      cases hdoc : doc[info.pageIdx]? with
      | none => exact hget
      | some pg =>
        have hlt1 : info.pageIdx < doc.length := (List.getElem?_eq_some_iff.1 hdoc).1
        have hlt2 : info.pageIdx < doc2.length :=
          (List.getElem?_eq_some_iff.1 (hget.trans hdoc)).1
        rw [List.getElem?_set_self hlt1, List.getElem?_set_self hlt2]

theorem overlay_get (m : GlyphMap) (obj : ℕ) (fn : String) (pages : List PageInfo)
    (hnd : (pages.map (fun p => p.pageIdx)).Nodup) (info : PageInfo) (hmem : info ∈ pages) :
    ∀ doc : List PdfPage, (pages.foldl (overlayStep m obj fn) doc)[info.pageIdx]? =
      (overlayStep m obj fn doc info)[info.pageIdx]? := by
  induction pages with
  | nil => cases hmem
  | cons p rest ih =>
    intro doc
    rw [List.map_cons, List.nodup_cons] at hnd
    rcases List.mem_cons.1 hmem with hcase | hcase
    · subst hcase
      rw [List.foldl_cons]
      apply overlay_foldl_notouch
      intro q hq hqeq
      exact hnd.1 (hqeq ▸ List.mem_map_of_mem (fun p => p.pageIdx) hq)
    · have hne : p.pageIdx ≠ info.pageIdx := by
        intro heq
        exact hnd.1 (heq ▸ List.mem_map_of_mem (fun p => p.pageIdx) hcase)
      rw [List.foldl_cons, ih hnd.2 hcase]
      exact overlayStep_get_agree _ _ _ _ _ _ (overlayStep_get_other _ _ _ _ _ _ hne)

/-- C10: a page whose char_boxes list is non-empty but none of whose
codepoints are in the font map still receives an appended content
stream consisting only of q and Q, and still gets the Type 3 font
registered under /VF1 in its Resources; a page with an empty char_boxes
list is left entirely untouched. -/
theorem claim_C10 (doc : List PdfPage) (pages : List PageInfo) (m : GlyphMap) (fontObj : ℕ)
    (hnd : (pages.map (fun p => p.pageIdx)).Nodup) (info : PageInfo) (hmem : info ∈ pages)
    (pg : PdfPage) (hpg : doc[info.pageIdx]? = some pg) :
    (info.charBoxes ≠ [] → (∀ b ∈ info.charBoxes, lookupGlyph m b.char = none) →
      buildPageStream info m = [[.s "q"], [.s "Q"]] ∧
      (overlayType3Text doc pages m fontObj)[info.pageIdx]? =
        some { contents := appendContents pg.contents [[.s "q"], [.s "Q"]]
               resources := registerFont pg.resources "VF1" fontObj }) ∧
    (info.charBoxes = [] →
      (overlayType3Text doc pages m fontObj)[info.pageIdx]? = some pg) := by
  have hlt : info.pageIdx < doc.length := (List.getElem?_eq_some_iff.1 hpg).1
  have hover := overlay_get m fontObj "VF1" pages hnd info hmem doc
  constructor
  · intro hne hnone
    have hstream := buildPageStream_nofont info m hnone
    refine ⟨hstream, ?_⟩
    rw [overlayType3Text, hover]
    unfold overlayStep
    rw [if_neg hne]
    dsimp only
    rw [if_neg (by rw [streamBlank_buildPageStream info m]; simp), hpg]
    dsimp only
    rw [hstream]
    exact List.getElem?_set_self hlt
  · intro hempty
    rw [overlayType3Text, hover]
    unfold overlayStep
    rw [if_pos hempty, hpg]

/-- C10 witness: the theorem applied at a one-page document whose single
box has no vectorised glyph (empty font map). -/
theorem claim_C10_witness :
    buildPageStream ⟨0, 10, 10, 7, 7, [⟨'A', 0, 0, 1, 1, 0⟩]⟩ [] = [[.s "q"], [.s "Q"]] ∧
    (overlayType3Text [⟨PdfContents.null, none⟩]
        [⟨0, 10, 10, 7, 7, [⟨'A', 0, 0, 1, 1, 0⟩]⟩] [] 3)[0]? =
      some { contents := appendContents PdfContents.null [[.s "q"], [.s "Q"]]
             resources := registerFont none "VF1" 3 } :=
  (claim_C10 [⟨PdfContents.null, none⟩] [⟨0, 10, 10, 7, 7, [⟨'A', 0, 0, 1, 1, 0⟩]⟩] [] 3
      (by simp) ⟨0, 10, 10, 7, 7, [⟨'A', 0, 0, 1, 1, 0⟩]⟩ (List.mem_singleton.2 rfl)
      ⟨PdfContents.null, none⟩ rfl).1 (by simp)
    (fun b _ => rfl)

/-! ## Helper lemmas for the vectoriser claim (C3) -/

/-- A successful run of the dispatch loop on a token stream that starts
with a moveto command and its two coordinates always emits a moveto
first. -/
theorem svgGo_M_head (s hpx : ℚ) (f : ℕ) (c : Char) (m1 e1 m2 e2 : ℤ) (rest : List SvgTok)
    (cx cy : ℚ) (hc : c = 'M' ∨ c = 'm') (ops : List PdfOp)
    (h : svgGo s hpx (f + 1) (.cmd c :: .num m1 e1 :: .num m2 e2 :: rest) cx cy = .ok ops) :
    ∃ x y t, ops = .move x y :: t := by
  rw [svgGo] at h
  rw [if_pos hc] at h
  dsimp only at h
  cases hl : linetos (c = 'm') s hpx rest (if c = 'm' then cx + toQ m1 e1 else toQ m1 e1)
      (if c = 'm' then cy + toQ m2 e2 else toQ m2 e2) with
  | error e => rw [hl] at h; dsimp only at h; cases h
  | ok res =>
    obtain ⟨ops1, cx2, cy2, r3⟩ := res
    rw [hl] at h
    dsimp only at h
    cases hg : svgGo s hpx f r3 cx2 cy2 with
    | error e => rw [hg] at h; cases h
    | ok ops2 =>
      rw [hg] at h
      dsimp only at h
      exact ⟨_, _, _, (Except.ok.inj h).symm⟩

/-- When every d attribute tokenizes to a moveto command with its pair
of coordinates first, every op list kept by the per-d loop begins with a
moveto and, for non-empty input, at least one list is kept. -/
theorem collectOps_M (w h : ℚ) (ds : List String)
    (hM : ∀ d ∈ ds, ∃ c m1 e1 m2 e2 rest,
      svgTokenize d = .cmd c :: .num m1 e1 :: .num m2 e2 :: rest ∧ (c = 'M' ∨ c = 'm')) :
    ∀ all, collectOps w h ds = .ok all →
      (∀ ops ∈ all, ∃ x y t, ops = PdfOp.move x y :: t) ∧ (ds ≠ [] → all ≠ []) := by
  induction ds with
  | nil =>
    intro all hall
    rw [collectOps] at hall
    rw [← Except.ok.inj hall]
    exact ⟨by simp, fun hne => absurd rfl hne⟩
  | cons d ds ih =>
    intro all hall
    rw [collectOps] at hall
    cases hrun : svgPathToPdfOps d w h with
    | error e => rw [hrun] at hall; cases hall
    | ok ops =>
      rw [hrun] at hall
      dsimp only at hall
      cases hrest : collectOps w h ds with
      | error e => rw [hrest] at hall; cases hall
      | ok rest =>
        rw [hrest] at hall
        dsimp only at hall
        obtain ⟨c, m1, e1, m2, e2, resttok, htok, hc⟩ := hM d (List.mem_cons_self d ds)
        have hops : ∃ x y t, ops = PdfOp.move x y :: t := by
          rw [svgPathToPdfOps, htok] at hrun
          simp only [List.length_cons] at hrun
          exact svgGo_M_head _ _ _ c m1 e1 m2 e2 resttok 0 0 hc ops hrun
        obtain ⟨x, y, t, hops⟩ := hops
        subst hops
        simp only [List.isEmpty_cons, Bool.false_eq_true, if_false] at hall
        rw [← Except.ok.inj hall]
        have ihh := ih (fun d2 hd2 => hM d2 (List.mem_cons_of_mem d hd2)) rest hrest
        constructor
        · intro o ho
          rcases List.mem_cons.1 ho with ho | ho
          · exact ⟨x, y, t, ho⟩
          · exact ihh.1 o ho
        · intro
          simp

/-- C3 counterexample: an SVG path whose data does not start with a
moveto command ("L 5 5", on a 10-by-10 crop) is transcoded as-is: the
vectoriser returns a path-ops string, and that string's first operator
is a lineto, not a moveto. -/
theorem claim_C3_counterexample :
    glyphOpsResult 10 10 (some ["L 5 5"]) = .ok (some [PdfOp.line 500 500]) ∧
    headIsMoveto [PdfOp.line 500 500] = false ∧
    glyphToPdfOps 10 10 (some ["L 5 5"]) = .ok (some "500.0000 500.0000 l\nf") := by
  have h1 : glyphOpsResult 10 10 (some ["L 5 5"]) = .ok (some [PdfOp.line 500 500]) := by
    have hrun : svgPathToPdfOps "L 5 5" 10 10 = .ok [PdfOp.line 500 500] := by
      rw [svgPathToPdfOps]
      rw [show svgTokenize "L 5 5" = [.cmd 'L', .num 5 0, .num 5 0] from by decide]
      simp [svgGo, linetos, toQ, fxOp, fyOp]
      norm_num
    simp [glyphOpsResult, collectOps, hrun]
  refine ⟨h1, by decide, ?_⟩
  rw [glyphToPdfOps, h1]
  have h2 : fmt4 500 = "500.0000" := by
    rw [fmt4]
    have h500 : (500 : ℚ) * 10000 = ((5000000 : ℤ) : ℚ) := by norm_num
    rw [h500, roundHE_intCast]
    decide
  simp [renderOps, renderOp, h2]
  decide

/-- C3 amended: the vectoriser returns None exactly for a zero-width or
zero-height crop, failed or empty backend output, or no extracted path
data; a returned path-ops string is the rendering of the transcoded
operator list terminated by newline and the fill operator f, and it
begins with a moveto provided every path's data starts with a moveto
command (as well-formed SVG guarantees — the code itself does not check
this); the advance width for a non-degenerate crop is EM·w_px/h_px. -/
theorem claim_C3_amended (wPx hPx : ℕ) (ds : List String) :
    (∀ svg, wPx = 0 ∨ hPx = 0 → glyphOpsResult wPx hPx svg = .ok none) ∧
    glyphOpsResult wPx hPx none = .ok none ∧
    glyphOpsResult wPx hPx (some []) = .ok none ∧
    (∀ str, glyphToPdfOps wPx hPx (some ds) = .ok (some str) →
      ∃ ops, glyphOpsResult wPx hPx (some ds) = .ok (some ops) ∧
        str = renderOps ops ++ "\nf") ∧
    ((∀ d ∈ ds, ∃ c m1 e1 m2 e2 rest,
        svgTokenize d = .cmd c :: .num m1 e1 :: .num m2 e2 :: rest ∧ (c = 'M' ∨ c = 'm')) →
      (∀ ops, glyphOpsResult wPx hPx (some ds) = .ok (some ops) →
        headIsMoveto ops = true) ∧
      (¬wPx = 0 → ¬hPx = 0 → ds ≠ [] → glyphOpsResult wPx hPx (some ds) ≠ .ok none)) ∧
    (hPx ≠ 0 → advanceWidth wPx hPx = EM * wPx / hPx) := by
  refine ⟨?_, ?_, ?_, ?_, ?_, ?_⟩
  · intro svg hz
    rw [glyphOpsResult.eq_def, if_pos hz]
  · rw [glyphOpsResult]
    split_ifs <;> rfl
  · rw [glyphOpsResult]
    split_ifs <;> rfl
  · intro str h
    rw [glyphToPdfOps] at h
    cases hres : glyphOpsResult wPx hPx (some ds) with
    | error e => rw [hres] at h; cases h
    | ok o =>
      cases o with
      | none => rw [hres] at h; cases h
      | some ops =>
        rw [hres] at h
        exact ⟨ops, rfl, (Option.some.inj (Except.ok.inj h)).symm⟩
  · intro hM
    by_cases hz : wPx = 0 ∨ hPx = 0
    · have hznone : glyphOpsResult wPx hPx (some ds) = .ok none := by
        rw [glyphOpsResult.eq_def, if_pos hz]
      constructor
      · intro ops hres
        rw [hznone] at hres
        simp at hres
      · intro h0 h1
        exact absurd hz (by push_neg; exact ⟨h0, h1⟩)
    · constructor
      · intro ops hres
        rw [glyphOpsResult.eq_def] at hres
        rw [if_neg hz] at hres
        dsimp only at hres
        by_cases hds : ds = []
        · rw [if_pos hds] at hres
          simp at hres
        · rw [if_neg hds] at hres
          cases hcol : collectOps (wPx : ℚ) (hPx : ℚ) ds with
          | error e => rw [hcol] at hres; cases hres
          | ok all =>
            rw [hcol] at hres
            dsimp only at hres
            have hcm := collectOps_M (wPx : ℚ) (hPx : ℚ) ds hM all hcol
            by_cases hall : all = []
            · rw [if_pos hall] at hres
              simp at hres
            · rw [if_neg hall] at hres
              have hops : ops = all.flatten := (Option.some.inj (Except.ok.inj hres)).symm
              cases all with
              | nil => exact absurd rfl hall
              | cons a as =>
                obtain ⟨x, y, t, ha⟩ := hcm.1 a (List.mem_cons_self a as)
                rw [hops, List.flatten_cons, ha]
                rfl
      · intro h0 h1 hds hres
        rw [glyphOpsResult.eq_def] at hres
        rw [if_neg hz] at hres
        dsimp only at hres
        rw [if_neg hds] at hres
        cases hcol : collectOps (wPx : ℚ) (hPx : ℚ) ds with
        | error e => rw [hcol] at hres; cases hres
        | ok all =>
          rw [hcol] at hres
          dsimp only at hres
          have hcm := collectOps_M (wPx : ℚ) (hPx : ℚ) ds hM all hcol
          by_cases hall : all = []
          · exact (hcm.2 hds) hall
          · rw [if_neg hall] at hres
            simp at hres
  · intro h0
    rw [advanceWidth, if_neg h0]

/-- C3 witness: the amended theorem applied at a 2-by-4 crop whose
single path is "M 1 2 Z". -/
theorem claim_C3_witness :
    glyphOpsResult 2 4 (some ["M 1 2 Z"]) =
      .ok (some [PdfOp.move 250 500, PdfOp.closePath]) ∧
    headIsMoveto [PdfOp.move 250 500, PdfOp.closePath] = true ∧
    advanceWidth 2 4 = EM * 2 / 4 := by
  have hcomp : glyphOpsResult 2 4 (some ["M 1 2 Z"]) =
      .ok (some [PdfOp.move 250 500, PdfOp.closePath]) := by
    have hrun : svgPathToPdfOps "M 1 2 Z" 2 4 = .ok [PdfOp.move 250 500, PdfOp.closePath] := by
      rw [svgPathToPdfOps]
      rw [show svgTokenize "M 1 2 Z" = [.cmd 'M', .num 1 0, .num 2 0, .cmd 'Z'] from by decide]
      simp [svgGo, linetos, toQ, fxOp, fyOp]
      norm_num
    simp [glyphOpsResult, collectOps, hrun]
  have hM : ∀ d ∈ ["M 1 2 Z"], ∃ c m1 e1 m2 e2 rest,
      svgTokenize d = .cmd c :: .num m1 e1 :: .num m2 e2 :: rest ∧ (c = 'M' ∨ c = 'm') := by
    intro d hd
    rw [List.mem_singleton.1 hd]
    exact ⟨'M', 1, 0, 2, 0, [.cmd 'Z'], by decide, Or.inl rfl⟩
  refine ⟨hcomp, ?_, ?_⟩
  · exact ((claim_C3_amended 2 4 ["M 1 2 Z"]).2.2.2.2.1 hM).1 _ hcomp
  · exact (claim_C3_amended 2 4 ["M 1 2 Z"]).2.2.2.2.2 (by norm_num)

/-! ## Helper lemmas for the Type 3 font claims (C1 and C6) -/

theorem mem_fontCodes {m : GlyphMap} {e : Char × ℚ × String} (he : e ∈ m) :
    charCode e.1 ∈ fontCodes m :=
  mem_sortAsc.2 (List.mem_map_of_mem (fun e => charCode e.1) he)

theorem fontFirst_le {m : GlyphMap} {e : Char × ℚ × String} (he : e ∈ m) :
    fontFirst m ≤ charCode e.1 :=
  sorted_head_le (sorted_sortAsc _) (mem_fontCodes he)

theorem le_fontLast {m : GlyphMap} {e : Char × ℚ × String} (he : e ∈ m) :
    charCode e.1 ≤ fontLast m :=
  sorted_le_getLast (sorted_sortAsc _) (mem_fontCodes he)

theorem fontFirst_le_fontLast {m : GlyphMap} (hm : m ≠ []) :
    fontFirst m ≤ fontLast m := by
  cases m with
  | nil => exact absurd rfl hm
  | cons e es =>
    exact le_trans (fontFirst_le (List.mem_cons_self e es))
      (le_fontLast (List.mem_cons_self e es))

theorem mem_fontRange_iff {m : GlyphMap} {k : ℕ} :
    k ∈ fontRange m ↔ fontFirst m ≤ k ∧ k ≤ fontLast m := by
  rw [fontRange, List.mem_range']
  constructor
  · rintro ⟨i, hi, rfl⟩
    omega
  · intro ⟨h1, h2⟩
    exact ⟨k - fontFirst m, by omega, by omega⟩

theorem widthAt_of_none {m : GlyphMap} {k : ℕ}
    (h : ∀ e ∈ m, charCode e.1 ≠ k) : widthAt m k = 0 := by
  rw [widthAt, List.find?_eq_none.2 (fun e he => by
    simpa using h e (List.mem_reverse.1 he))]

theorem widthAt_of_mem {m : GlyphMap} {e : Char × ℚ × String} (he : e ∈ m)
    (hadv : ∀ x ∈ m, round3 x.2.1 ≠ 0) : widthAt m (charCode e.1) ≠ 0 := by
  rw [widthAt]
  cases hfind : m.reverse.find? (fun x => charCode x.1 = charCode e.1) with
  | none =>
    rw [List.find?_eq_none] at hfind
    exact absurd (by simp) (hfind e (List.mem_reverse.2 he))
  | some x =>
    exact hadv x (List.mem_reverse.1 (List.mem_of_find?_eq_some hfind))

/-- Every name entry of the Differences fold comes from the initial
accumulator or is the glyph name of the first map entry matching some
swept code. -/
theorem diff_fold_names (m : GlyphMap) (codes : List ℕ) :
    ∀ st nm, DiffEntry.name nm ∈ (codes.foldl (diffStep m) st).2 →
      DiffEntry.name nm ∈ st.2 ∨
      ∃ k ∈ codes, ∃ e rest, m.filter (fun x => charCode x.1 = k) = e :: rest ∧
        nm = glyphName e.1 := by
  induction codes with
  | nil => exact fun st nm h => Or.inl h
  | cons k0 ks ih =>
    intro st nm h
    rw [List.foldl_cons] at h
    rcases ih (diffStep m st k0) nm h with hmem | ⟨k, hk, e, rest, hf, hnm⟩
    · rw [diffStep] at hmem
      cases hfil : m.filter (fun x => charCode x.1 = k0) with
      | nil =>
        rw [hfil] at hmem
        exact Or.inl hmem
      | cons e rest =>
        rw [hfil] at hmem
        dsimp only at hmem
        rcases List.mem_append.1 hmem with hmem | hmem
        · cases hst : st.1 with
          | none =>
            rw [hst] at hmem
            dsimp only at hmem
            rcases List.mem_append.1 hmem with hmem | hmem
            · exact Or.inl hmem
            · simp at hmem
          | some p =>
            rw [hst] at hmem
            dsimp only at hmem
            by_cases hprev : k0 = p + 1
            · rw [if_pos hprev] at hmem
              exact Or.inl hmem
            · rw [if_neg hprev] at hmem
              rcases List.mem_append.1 hmem with hmem | hmem
              · exact Or.inl hmem
              · simp at hmem
        · have : nm = glyphName e.1 := by simpa using hmem
          exact Or.inr ⟨k0, List.mem_cons_self k0 ks, e, rest, hfil, this⟩
    · exact Or.inr ⟨k, List.mem_cons_of_mem k0 hk, e, rest, hf, hnm⟩

/-- The Differences fold only appends entries. -/
theorem diff_fold_mono (m : GlyphMap) (codes : List ℕ) :
    ∀ st x, x ∈ st.2 → x ∈ (codes.foldl (diffStep m) st).2 := by
  induction codes with
  | nil => exact fun st x h => h
  | cons k0 ks ih =>
    intro st x h
    rw [List.foldl_cons]
    apply ih
    rw [diffStep]
    cases hfil : m.filter (fun e => charCode e.1 = k0) with
    | nil => exact h
    | cons e rest =>
      dsimp only
      apply List.mem_append_left
      cases st.1 with
      | none =>
        dsimp only
        exact List.mem_append_left _ h
      | some p =>
        dsimp only
        by_cases hprev : k0 = p + 1
        · rw [if_pos hprev]
          exact h
        · rw [if_neg hprev]
          exact List.mem_append_left _ h

/-- A swept code whose filter is non-empty contributes the glyph name of
the first matching map entry. -/
theorem diff_fold_hit (m : GlyphMap) (codes : List ℕ) (k : ℕ) (hk : k ∈ codes)
    (e : Char × ℚ × String) (rest : List (Char × ℚ × String))
    (hf : m.filter (fun x => charCode x.1 = k) = e :: rest) :
    ∀ st, DiffEntry.name (glyphName e.1) ∈ (codes.foldl (diffStep m) st).2 := by
  induction codes with
  | nil => cases hk
  | cons k0 ks ih =>
    intro st
    rw [List.foldl_cons]
    rcases List.mem_cons.1 hk with hcase | hcase
    · subst hcase
      apply diff_fold_mono
      rw [diffStep, hf]
      dsimp only
      exact List.mem_append_right _ (List.mem_singleton.2 rfl)
    · exact ih hcase _

/-- Entries of a glyph map with Nodup keys are determined by their
key. -/
theorem glyphMap_key_inj {m : GlyphMap} (hnd : (m.map (fun e => e.1)).Nodup)
    {e1 e2 : Char × ℚ × String} (h1 : e1 ∈ m) (h2 : e2 ∈ m) (hk : e1.1 = e2.1) :
    e1 = e2 :=
  List.inj_on_of_nodup_map hnd h1 h2 hk

/-- C1 counterexample: a one-glyph map whose advance width is 0 builds a
font whose sole CharProcs key A has the (only) Widths entry equal to
0 — "every key of CharProcs corresponds to a non-zero entry of Widths"
fails without an assumption on the advances. -/
theorem claim_C1_counterexample :
    buildType3Font [('A', 0, "ops")] =
      some ⟨65, 65, [0], [("A", ⟨0, "ops"⟩)], [.code 65, .name "A"]⟩ ∧
    (∀ F, buildType3Font [('A', (0 : ℚ), "ops")] = some F →
      (∃ p, p ∈ F.charProcs) ∧ ∀ w ∈ F.widths, w = 0) := by
  have hbuild : buildType3Font [('A', 0, "ops")] =
      some ⟨65, 65, [0], [("A", ⟨0, "ops"⟩)], [.code 65, .name "A"]⟩ := by
    simp [buildType3Font, fontCodes, fontFirst, fontLast, fontRange, sortAsc, insertAsc,
      charCode, widthAt, round3, roundHE, diffStep, glyphName, glyphNames, List.range',
      List.filter]
  refine ⟨hbuild, fun F hF => ?_⟩
  rw [hbuild] at hF
  rw [← Option.some.inj hF]
  exact ⟨⟨("A", ⟨0, "ops"⟩), by simp⟩, by simp⟩

/-- C1 amended: for every non-empty glyph map, the built font has
exactly LastChar − FirstChar + 1 Widths entries; codes in range matched
by no map entry get width 0; every glyph name in Encoding.Differences is
a key of CharProcs; and — provided every advance width still rounds to a
non-zero value at three decimals, as holds for all vectoriser-produced
advances of at least 0.0005 — every key of CharProcs corresponds
(through its byte code) to a non-zero Widths entry. -/
theorem claim_C1_amended (m : GlyphMap) (hm : m ≠ [])
    (hadv : ∀ e ∈ m, round3 e.2.1 ≠ 0) :
    ∃ F, buildType3Font m = some F ∧
      F.widths.length = F.lastChar - F.firstChar + 1 ∧
      (∀ i (hi : i < F.widths.length), (∀ e ∈ m, charCode e.1 ≠ F.firstChar + i) →
        F.widths.get ⟨i, hi⟩ = 0) ∧
      (∀ nm, DiffEntry.name nm ∈ F.differences → ∃ st, (nm, st) ∈ F.charProcs) ∧
      (∀ p ∈ F.charProcs, ∃ e ∈ m, p.1 = glyphName e.1 ∧
        ∃ i, ∃ hi : i < F.widths.length, F.firstChar + i = charCode e.1 ∧
          F.widths.get ⟨i, hi⟩ ≠ 0) := by
  have hbuild : buildType3Font m =
      some ⟨fontFirst m, fontLast m, (fontRange m).map (widthAt m),
        m.map (fun e => (glyphName e.1, ⟨round3 e.2.1, e.2.2⟩)),
        ((fontRange m).foldl (diffStep m) (none, [])).2⟩ := by
    rw [buildType3Font, if_neg hm]
  refine ⟨_, hbuild, ?_, ?_, ?_, ?_⟩
  · simp only [List.length_map, fontRange, List.length_range']
    have := fontFirst_le_fontLast hm
    omega
  · intro i hi hnone
    simp only [List.length_map, fontRange, List.length_range'] at hi
    have hget : ((fontRange m).map (widthAt m)).get
        ⟨i, by simpa [fontRange] using hi⟩ = widthAt m (fontFirst m + i) := by
      simp [fontRange, List.getElem_range']
    rw [hget]
    exact widthAt_of_none hnone
  · intro nm hnm
    rcases diff_fold_names m (fontRange m) (none, []) nm hnm with hmem | ⟨k, _, e, rest, hf, hn⟩
    · simp at hmem
    · have hef : e ∈ m.filter (fun x => charCode x.1 = k) := by
        rw [hf]
        exact List.mem_cons_self _ _
      have hem : e ∈ m := (List.mem_filter.1 hef).1
      exact ⟨⟨round3 e.2.1, e.2.2⟩, hn ▸ List.mem_map_of_mem _ hem⟩
  · intro p hp
    obtain ⟨e, hem, hpe⟩ := List.mem_map.1 hp
    refine ⟨e, hem, by rw [← hpe], charCode e.1 - fontFirst m, ?_, ?_⟩
    · simp only [List.length_map, fontRange, List.length_range']
      have h1 := fontFirst_le hem
      have h2 := le_fontLast hem
      omega
    · have h1 := fontFirst_le hem
      have h2 := le_fontLast hem
      have hcode : fontFirst m + (charCode e.1 - fontFirst m) = charCode e.1 := by omega
      refine ⟨hcode, ?_⟩
      have hget : ((fontRange m).map (widthAt m)).get
          ⟨charCode e.1 - fontFirst m, by
            simp only [List.length_map, fontRange, List.length_range']
            omega⟩ = widthAt m (fontFirst m + (charCode e.1 - fontFirst m)) := by
        simp [fontRange, List.getElem_range']
      rw [hget, hcode]
      exact widthAt_of_mem hem hadv

/-- C1 witness: the amended theorem applied at a concrete two-glyph
map. -/
theorem claim_C1_witness :
    ∃ F, buildType3Font [('H', 600, "h"), ('i', 250, "i")] = some F ∧
      F.widths.length = F.lastChar - F.firstChar + 1 ∧
      (∀ i (hi : i < F.widths.length),
        (∀ e ∈ [('H', (600 : ℚ), "h"), ('i', 250, "i")],
          charCode e.1 ≠ F.firstChar + i) → F.widths.get ⟨i, hi⟩ = 0) ∧
      (∀ nm, DiffEntry.name nm ∈ F.differences → ∃ st, (nm, st) ∈ F.charProcs) ∧
      (∀ p ∈ F.charProcs, ∃ e ∈ [('H', (600 : ℚ), "h"), ('i', 250, "i")],
        p.1 = glyphName e.1 ∧
        ∃ i, ∃ hi : i < F.widths.length, F.firstChar + i = charCode e.1 ∧
          F.widths.get ⟨i, hi⟩ ≠ 0) :=
  claim_C1_amended [('H', 600, "h"), ('i', 250, "i")] (by simp)
    (by
      intro e he
      rcases List.mem_cons.1 he with he | he
      · subst he
        norm_num [round3, roundHE]
      · rw [List.mem_singleton.1 he]
        norm_num [round3, roundHE])

/-- C6 counterexample: U+0100 and U+0200 both fold to byte code 128;
with U+0100 inserted first and U+0200 last, Encoding.Differences carries
uni0100 — the name of the codepoint written first, not last-writer-wins
as claimed (while both codepoints do appear in CharProcs under distinct
names, and the Widths entry silently takes the last writer's
advance). -/
theorem claim_C6_counterexample :
    buildType3Font [('Ā', 500, "a"), ('Ȁ', 600, "b")] =
      some ⟨128, 128, [600], [("uni0100", ⟨500, "a"⟩), ("uni0200", ⟨600, "b"⟩)],
        [.code 128, .name "uni0100"]⟩ ∧
    charCode 'Ā' = charCode 'Ȁ' ∧ 'Ā' ≠ 'Ȁ' ∧
    glyphName 'Ā' = "uni0100" ∧ glyphName 'Ȁ' = "uni0200" ∧
    DiffEntry.name "uni0200" ∉
      ([DiffEntry.code 128, DiffEntry.name "uni0100"] : List DiffEntry) := by
  refine ⟨?_, by decide, by decide, by decide, by decide, by decide⟩
  have hround5 : round3 (500 : ℚ) = 500 := by norm_num [round3, roundHE]
  have hround6 : round3 (600 : ℚ) = 600 := by norm_num [round3, roundHE]
  simp [buildType3Font, fontCodes, fontFirst, fontLast, fontRange, sortAsc, insertAsc,
    charCode, widthAt, diffStep, List.range', List.filter, hround5, hround6,
    Type3Font.mk.injEq, glyphName, glyphNames, hexPad4, hexChars, hexDigitChar]

/-- C6 amended: when several distinct codepoints of the glyph map fold
to the same byte code, the Encoding.Differences entry for that code
carries the glyph name of the codepoint that was written FIRST into the
map (Python's matching[0]), not the one written last; the name of any
later colliding codepoint does not appear in Differences at all, while
both codepoints appear in CharProcs under distinct glyph names. -/
theorem claim_C6_amended (m : GlyphMap) (hnd : (m.map (fun e => e.1)).Nodup)
    (k : ℕ) (e1 e2 : Char × ℚ × String) (rest : List (Char × ℚ × String))
    (hfilter : m.filter (fun x => charCode x.1 = k) = e1 :: e2 :: rest) :
    ∃ F, buildType3Font m = some F ∧
      DiffEntry.name (glyphName e1.1) ∈ F.differences ∧
      DiffEntry.name (glyphName e2.1) ∉ F.differences ∧
      (glyphName e1.1, (⟨round3 e1.2.1, e1.2.2⟩ : GlyphStream)) ∈ F.charProcs ∧
      (glyphName e2.1, (⟨round3 e2.2.1, e2.2.2⟩ : GlyphStream)) ∈ F.charProcs ∧
      glyphName e1.1 ≠ glyphName e2.1 := by
  have he1f : e1 ∈ m.filter (fun x => charCode x.1 = k) := by
    rw [hfilter]; exact List.mem_cons_self _ _
  have he2f : e2 ∈ m.filter (fun x => charCode x.1 = k) := by
    rw [hfilter]; exact List.mem_cons_of_mem _ (List.mem_cons_self _ _)
  have he1 : e1 ∈ m := (List.mem_filter.1 he1f).1
  have he2 : e2 ∈ m := (List.mem_filter.1 he2f).1
  have hc1 : charCode e1.1 = k := by simpa using (List.mem_filter.1 he1f).2
  have hc2 : charCode e2.1 = k := by simpa using (List.mem_filter.1 he2f).2
  have hm : m ≠ [] := by
    intro hcon
    rw [hcon] at he1
    cases he1
  have hkey : e1.1 ≠ e2.1 := by
    intro heq
    have hfe : e1 = e2 := glyphMap_key_inj hnd he1 he2 heq
    have hfnd : ((m.filter (fun x => charCode x.1 = k)).map (fun e => e.1)).Nodup :=
      (List.Sublist.map (fun e => e.1) (List.filter_sublist m)).nodup hnd
    rw [hfilter] at hfnd
    simp only [List.map_cons, List.nodup_cons, List.mem_cons, List.mem_map] at hfnd
    exact hfnd.1 (Or.inl (congrArg (fun e => e.1) hfe))
  have hnames : glyphName e1.1 ≠ glyphName e2.1 :=
    fun hc => hkey (glyphName_injective hc)
  have hbuild : buildType3Font m =
      some ⟨fontFirst m, fontLast m, (fontRange m).map (widthAt m),
        m.map (fun e => (glyphName e.1, ⟨round3 e.2.1, e.2.2⟩)),
        ((fontRange m).foldl (diffStep m) (none, [])).2⟩ := by
    rw [buildType3Font, if_neg hm]
  have hkrange : k ∈ fontRange m :=
    mem_fontRange_iff.2 ⟨hc1 ▸ fontFirst_le he1, hc1 ▸ le_fontLast he1⟩
  refine ⟨_, hbuild, ?_, ?_, ?_, ?_, hnames⟩
  · exact diff_fold_hit m (fontRange m) k hkrange e1 (e2 :: rest) hfilter (none, [])
  · intro hmem
    rcases diff_fold_names m (fontRange m) (none, []) (glyphName e2.1) hmem with
      hmem | ⟨k2, _, e, rest2, hf2, hn2⟩
    · simp at hmem
    · have hemem2 : e ∈ m.filter (fun x => charCode x.1 = k2) := by
        rw [hf2]
        exact List.mem_cons_self _ _
      have hem : e ∈ m := (List.mem_filter.1 hemem2).1
      have hck2 : charCode e.1 = k2 := by simpa using (List.mem_filter.1 hemem2).2
      have hee : e = e2 :=
        glyphMap_key_inj hnd hem he2 (glyphName_injective hn2).symm
      have hkk : k2 = k := by rw [← hck2, hee, hc2]
      rw [hkk, hfilter] at hf2
      have he12 : e1 = e2 := (List.head_eq_of_cons_eq hf2.symm).symm.trans hee
      exact hkey (congrArg (fun e => e.1) he12)
  · exact List.mem_map_of_mem _ he1
  · exact List.mem_map_of_mem _ he2

/-- C6 witness: the amended theorem applied at the concrete colliding
pair U+0100 / U+0200. -/
theorem claim_C6_witness :
    ∃ F, buildType3Font [('Ā', 500, "a"), ('Ȁ', 600, "b")] = some F ∧
      DiffEntry.name (glyphName 'Ā') ∈ F.differences ∧
      DiffEntry.name (glyphName 'Ȁ') ∉ F.differences ∧
      (glyphName 'Ā', (⟨round3 (500 : ℚ), "a"⟩ : GlyphStream)) ∈ F.charProcs ∧
      (glyphName 'Ȁ', (⟨round3 (600 : ℚ), "b"⟩ : GlyphStream)) ∈ F.charProcs ∧
      glyphName 'Ā' ≠ glyphName 'Ȁ' :=
  claim_C6_amended [('Ā', 500, "a"), ('Ȁ', 600, "b")] (by decide) 128
    ('Ā', 500, "a") ('Ȁ', 600, "b") [] (by decide)

/-! ## Helper lemmas for the OCRmyPDF fallback claim (C9) -/

theorem buildCmd_mem_deskew (a : CsArgs) (hmode : a.mode = "best") :
    "--deskew" ∈ buildCmd a := by
  simp [buildCmd, hmode]

theorem buildCmd_mem_clean (a : CsArgs) (hmode : a.mode = "best") :
    "--clean" ∈ buildCmd a := by
  simp [buildCmd, hmode]

theorem buildCmd_mem_rotate (a : CsArgs) (hmode : a.mode = "best") :
    "--rotate-pages" ∈ buildCmd a := by
  simp [buildCmd, hmode]

theorem buildCmd_mem_optimize (a : CsArgs) : "--optimize" ∈ buildCmd a := by
  simp [buildCmd]

theorem buildCmd_contains_clean (a : CsArgs) (hmode : a.mode = "best") :
    (buildCmd a).contains "--clean" = true :=
  List.elem_eq_true_of_mem (buildCmd_mem_clean a hmode)

theorem cmd2_contains_optimize (a : CsArgs) :
    ((buildCmd a).filter (fun c => c ≠ "--clean")).contains "--optimize" = true :=
  List.elem_eq_true_of_mem (List.mem_filter.2 ⟨buildCmd_mem_optimize a, by decide⟩)

theorem buildCmd_contains_optimize (a : CsArgs) :
    (buildCmd a).contains "--optimize" = true :=
  List.elem_eq_true_of_mem (buildCmd_mem_optimize a)

/-- Equality of fallback results is decidable (needed to evaluate
concrete runs). -/
instance : DecidableEq (Except String Unit) := fun x y =>
  match x, y with
  | .ok a, .ok b =>
    if h : a = b then isTrue (by rw [h]) else isFalse (fun hc => h (Except.ok.inj hc))
  | .error a, .error b =>
    if h : a = b then isTrue (by rw [h]) else isFalse (fun hc => h (Except.error.inj hc))
  | .ok _, .error _ => isFalse (fun hc => Except.noConfusion hc)
  | .error _, .ok _ => isFalse (fun hc => Except.noConfusion hc)

/-- C9 amended: in mode best the first attempt carries deskew, cleaning
and rotation; on a non-zero exit whose output mentions the missing
page-cleaning tool the command is retried without the cleaning flag, and
a (then or instead) reported missing quantiser causes a retry with
optimisation level set to 1; at most two such degradations happen, and
what is surfaced is the success or failure of the last attempt: exit
status 0 on success, otherwise a raised error carrying the last
attempt's output (the process then exits 1, the child's numeric exit
code is not propagated). -/
theorem claim_C9_amended (a : CsArgs) (runner : List String → ℤ × String)
    (hmode : a.mode = "best") :
    "--deskew" ∈ buildCmd a ∧ "--clean" ∈ buildCmd a ∧ "--rotate-pages" ∈ buildCmd a ∧
    (clearscanRun a runner).1.length ≤ 3 ∧
    (clearscanRun a runner).1.head? = some (buildCmd a) ∧
    ((runner (buildCmd a)).1 ≠ 0 →
      missingCond "unpaper" (strLower (runner (buildCmd a)).2) = true →
      (clearscanRun a runner).1.take 2 =
        [buildCmd a, (buildCmd a).filter (fun c => c ≠ "--clean")]) ∧
    ((runner (buildCmd a)).1 ≠ 0 →
      missingCond "unpaper" (strLower (runner (buildCmd a)).2) = false →
      missingCond "pngquant" (strLower (runner (buildCmd a)).2) = true →
      (clearscanRun a runner).1 = [buildCmd a, setOptimize1 (buildCmd a)]) ∧
    ((runner (buildCmd a)).1 ≠ 0 →
      missingCond "unpaper" (strLower (runner (buildCmd a)).2) = true →
      (runner ((buildCmd a).filter (fun c => c ≠ "--clean"))).1 ≠ 0 →
      missingCond "pngquant"
        (strLower (runner ((buildCmd a).filter (fun c => c ≠ "--clean"))).2) = true →
      (clearscanRun a runner).1 = [buildCmd a, (buildCmd a).filter (fun c => c ≠ "--clean"),
        setOptimize1 ((buildCmd a).filter (fun c => c ≠ "--clean"))]) ∧
    ((clearscanRun a runner).2 = .ok () ↔
      (runner ((clearscanRun a runner).1.getLastD [])).1 = 0) ∧
    clearscanExit a runner =
      (if (runner ((clearscanRun a runner).1.getLastD [])).1 = 0 then 0 else 1) := by
  refine ⟨buildCmd_mem_deskew a hmode, buildCmd_mem_clean a hmode,
    buildCmd_mem_rotate a hmode, ?_⟩
  have hcc := buildCmd_contains_clean a hmode
  have hco := buildCmd_contains_optimize a
  have hc2o := cmd2_contains_optimize a
  by_cases h1 : (runner (buildCmd a)).1 = 0
  · have hrv : clearscanRun a runner = ([buildCmd a], .ok ()) := by
      unfold clearscanRun
      rw [if_pos h1]
    refine ⟨by rw [hrv]; simp, by rw [hrv]; rfl, ?_, ?_, ?_, ?_, ?_⟩
    · intro hc
      exact absurd h1 hc
    · intro hc
      exact absurd h1 hc
    · intro hc
      exact absurd h1 hc
    · rw [hrv]
      exact iff_of_true rfl h1
    · unfold clearscanExit
      rw [hrv]
      exact (if_pos h1).symm
  · by_cases h2 : missingCond "unpaper" (strLower (runner (buildCmd a)).2) = true
    · by_cases h3 : (runner ((buildCmd a).filter (fun c => c ≠ "--clean"))).1 = 0
      · have hrv : clearscanRun a runner =
            ([buildCmd a, (buildCmd a).filter (fun c => c ≠ "--clean")], .ok ()) := by
          unfold clearscanRun
          rw [if_neg h1]
          try dsimp only
          rw [if_pos (by rw [hcc, h2]; rfl)]
          try dsimp only
          rw [if_pos h3]
        refine ⟨by rw [hrv]; simp, by rw [hrv]; rfl, ?_, ?_, ?_, ?_, ?_⟩
        · intro _ _
          rw [hrv]
          rfl
        · intro _ hu
          rw [hu] at h2
          cases h2
        · intro _ _ hr3
          exact absurd h3 hr3
        · rw [hrv]
          exact iff_of_true rfl h3
        · unfold clearscanExit
          rw [hrv]
          exact (if_pos h3).symm
      · by_cases h4 : missingCond "pngquant"
            (strLower (runner ((buildCmd a).filter (fun c => c ≠ "--clean"))).2) = true
        · by_cases h5 : (runner (setOptimize1
              ((buildCmd a).filter (fun c => c ≠ "--clean")))).1 = 0
          · have hrv : clearscanRun a runner =
                ([buildCmd a, (buildCmd a).filter (fun c => c ≠ "--clean"),
                  setOptimize1 ((buildCmd a).filter (fun c => c ≠ "--clean"))], .ok ()) := by
              unfold clearscanRun
              rw [if_neg h1]
              try dsimp only
              rw [if_pos (by rw [hcc, h2]; rfl)]
              try dsimp only
              rw [if_neg h3]
              try dsimp only
              rw [if_pos (by rw [hc2o, h4]; rfl)]
              try dsimp only
              rw [if_pos h5]
            refine ⟨by rw [hrv]; simp, by rw [hrv]; rfl, ?_, ?_, ?_, ?_, ?_⟩
            · intro _ _
              rw [hrv]
              rfl
            · intro _ hu
              rw [hu] at h2
              cases h2
            · intro _ _ _ _
              rw [hrv]
            · rw [hrv]
              exact iff_of_true rfl h5
            · unfold clearscanExit
              rw [hrv]
              exact (if_pos h5).symm
          · have hrv : clearscanRun a runner =
                ([buildCmd a, (buildCmd a).filter (fun c => c ≠ "--clean"),
                  setOptimize1 ((buildCmd a).filter (fun c => c ≠ "--clean"))],
                 .error (runner (setOptimize1
                   ((buildCmd a).filter (fun c => c ≠ "--clean")))).2) := by
              unfold clearscanRun
              rw [if_neg h1]
              try dsimp only
              rw [if_pos (by rw [hcc, h2]; rfl)]
              try dsimp only
              rw [if_neg h3]
              try dsimp only
              rw [if_pos (by rw [hc2o, h4]; rfl)]
              try dsimp only
              rw [if_neg h5]
            refine ⟨by rw [hrv]; simp, by rw [hrv]; rfl, ?_, ?_, ?_, ?_, ?_⟩
            · intro _ _
              rw [hrv]
              rfl
            · intro _ hu
              rw [hu] at h2
              cases h2
            · intro _ _ _ _
              rw [hrv]
            · rw [hrv]
              exact iff_of_false (by simp) h5
            · unfold clearscanExit
              rw [hrv]
              exact (if_neg h5).symm
        · have hrv : clearscanRun a runner =
              ([buildCmd a, (buildCmd a).filter (fun c => c ≠ "--clean")],
               .error (runner ((buildCmd a).filter (fun c => c ≠ "--clean"))).2) := by
            unfold clearscanRun
            rw [if_neg h1]
            try dsimp only
            rw [if_pos (by rw [hcc, h2]; rfl)]
            try dsimp only
            rw [if_neg h3]
            try dsimp only
            rw [if_neg (by rw [hc2o]; simpa using h4)]
          refine ⟨by rw [hrv]; simp, by rw [hrv]; rfl, ?_, ?_, ?_, ?_, ?_⟩
          · intro _ _
            rw [hrv]
            rfl
          · intro _ hu
            rw [hu] at h2
            cases h2
          · intro _ _ _ h4x
            exact absurd h4x h4
          · rw [hrv]
            exact iff_of_false (by simp) h3
          · unfold clearscanExit
            rw [hrv]
            exact (if_neg h3).symm
    · by_cases h4 : missingCond "pngquant" (strLower (runner (buildCmd a)).2) = true
      · by_cases h5 : (runner (setOptimize1 (buildCmd a))).1 = 0
        · have hrv : clearscanRun a runner =
              ([buildCmd a, setOptimize1 (buildCmd a)], .ok ()) := by
            unfold clearscanRun
            rw [if_neg h1]
            try dsimp only
            rw [if_neg (by rw [hcc]; simpa using h2)]
            try dsimp only
            rw [if_pos (by rw [hco, h4]; rfl)]
            try dsimp only
            rw [if_pos h5]
          refine ⟨by rw [hrv]; simp, by rw [hrv]; rfl, ?_, ?_, ?_, ?_, ?_⟩
          · intro _ h2x
            exact absurd h2x h2
          · intro _ _ _
            rw [hrv]
          · intro _ h2x
            exact absurd h2x h2
          · rw [hrv]
            exact iff_of_true rfl h5
          · unfold clearscanExit
            rw [hrv]
            exact (if_pos h5).symm
        · have hrv : clearscanRun a runner =
              ([buildCmd a, setOptimize1 (buildCmd a)],
               .error (runner (setOptimize1 (buildCmd a))).2) := by
            unfold clearscanRun
            rw [if_neg h1]
            try dsimp only
            rw [if_neg (by rw [hcc]; simpa using h2)]
            try dsimp only
            rw [if_pos (by rw [hco, h4]; rfl)]
            try dsimp only
            rw [if_neg h5]
          refine ⟨by rw [hrv]; simp, by rw [hrv]; rfl, ?_, ?_, ?_, ?_, ?_⟩
          · intro _ h2x
            exact absurd h2x h2
          · intro _ _ _
            rw [hrv]
          · intro _ h2x
            exact absurd h2x h2
          · rw [hrv]
            exact iff_of_false (by simp) h5
          · unfold clearscanExit
            rw [hrv]
            exact (if_neg h5).symm
      · have hrv : clearscanRun a runner =
            ([buildCmd a], .error (runner (buildCmd a)).2) := by
          unfold clearscanRun
          rw [if_neg h1]
          try dsimp only
          rw [if_neg (by rw [hcc]; simpa using h2)]
          try dsimp only
          rw [if_neg (by rw [hco]; simpa using h4)]
        refine ⟨by rw [hrv]; simp, by rw [hrv]; rfl, ?_, ?_, ?_, ?_, ?_⟩
        · intro _ h2x
          exact absurd h2x h2
        · intro _ _ h4x
          exact absurd h4x h4
        · intro _ h2x
          exact absurd h2x h2
        · rw [hrv]
          exact iff_of_false (by simp) h1
        · unfold clearscanExit
          rw [hrv]
          exact (if_neg h1).symm

/-- C9 counterexample: when the final (here: only) attempt exits with
code 7, the fallback does not surface 7 — main raises RuntimeError with
the output text and the process exits 1. -/
theorem claim_C9_counterexample :
    clearscanRun ⟨"in.pdf", "out.pdf", "eng", "best", false, "pdf", "3"⟩
        (fun _ => (7, "boom")) =
      ([buildCmd ⟨"in.pdf", "out.pdf", "eng", "best", false, "pdf", "3"⟩], .error "boom") ∧
    clearscanExit ⟨"in.pdf", "out.pdf", "eng", "best", false, "pdf", "3"⟩
        (fun _ => (7, "boom")) = 1 ∧
    ((fun (_ : List String) => ((7 : ℤ), "boom"))
        (buildCmd ⟨"in.pdf", "out.pdf", "eng", "best", false, "pdf", "3"⟩)).1 = 7 ∧
    (1 : ℤ) ≠ 7 := by
  have hrv : clearscanRun ⟨"in.pdf", "out.pdf", "eng", "best", false, "pdf", "3"⟩
      (fun _ => (7, "boom")) =
      ([buildCmd ⟨"in.pdf", "out.pdf", "eng", "best", false, "pdf", "3"⟩], .error "boom") := by
    simp [clearscanRun, buildCmd, missingCond, containsStr, strLower, lowerChar,
      listInfixOf, listPrefixOf]
  exact ⟨hrv, by simp [clearscanExit, hrv], rfl, by decide⟩

/-- C9 witness: the amended theorem applied with a runner on which the
first attempt fails reporting the page cleaner missing and the retry
without the cleaning flag succeeds. -/
theorem claim_C9_witness :
    (clearscanRun ⟨"in.pdf", "out.pdf", "eng", "best", false, "pdf", "3"⟩
        (fun cmd => if cmd.contains "--clean" then (1, "unpaper was not found")
          else (0, ""))).1.take 2 =
      [buildCmd ⟨"in.pdf", "out.pdf", "eng", "best", false, "pdf", "3"⟩,
        (buildCmd ⟨"in.pdf", "out.pdf", "eng", "best", false, "pdf", "3"⟩).filter
          (fun c => c ≠ "--clean")] ∧
    (clearscanRun ⟨"in.pdf", "out.pdf", "eng", "best", false, "pdf", "3"⟩
        (fun cmd => if cmd.contains "--clean" then (1, "unpaper was not found")
          else (0, ""))).2 = .ok () := by
  have h := claim_C9_amended ⟨"in.pdf", "out.pdf", "eng", "best", false, "pdf", "3"⟩
    (fun cmd => if cmd.contains "--clean" then (1, "unpaper was not found") else (0, "")) rfl
  exact ⟨h.2.2.2.2.2.1 (by decide) (by decide), by decide⟩

end VectorScan
